import Mathlib

/-!
Verification of the OpenID4VCI end-to-end client flow of the
passport-mdoc-system repository (the walt.id issuance/verification test
script): credential-offer URL parsing, pre-authorized-code extraction,
proof-of-possession construction, credential extraction, bounded offer
retry, configuration selection, and the top-level run outcome.

JavaScript strings are modelled as lists of UTF-8 bytes (`List Nat`, each
element intended `< 256`), so that percent-encoding, query-string parsing
and JSON serialization operate at the same level the runtime does.
-/

namespace PassportMDoc

/-- Lowercase hexadecimal digit byte for a value `< 16` (as emitted by
`JSON.stringify` in `\u00XX` escapes). -/
def hexLower (n : Nat) : Nat :=
  if n < 10 then 48 + n else 87 + n

/-- Uppercase hexadecimal digit byte for a value `< 16` (as emitted by
`encodeURIComponent`). -/
def hexUpper (n : Nat) : Nat :=
  if n < 10 then 48 + n else 55 + n

/-- Is the byte an ASCII hexadecimal digit? -/
def isHexDigit (b : Nat) : Bool :=
  decide ((48 ≤ b ∧ b ≤ 57) ∨ (97 ≤ b ∧ b ≤ 102) ∨ (65 ≤ b ∧ b ≤ 70))

/-- Numeric value of an ASCII hexadecimal digit byte. -/
def hexVal (b : Nat) : Nat :=
  if 48 ≤ b ∧ b ≤ 57 then b - 48
  else if 97 ≤ b ∧ b ≤ 102 then b - 87
  else if 65 ≤ b ∧ b ≤ 70 then b - 55
  else 0

/-- Standard UTF-8 encoding of a code point. -/
def utf8EncodeNat (n : Nat) : List Nat :=
  if n < 128 then [n]
  else if n < 2048 then [192 + n / 64, 128 + n % 64]
  else if n < 65536 then [224 + n / 4096, 128 + n / 64 % 64, 128 + n % 64]
  else [240 + n / 262144, 128 + n / 4096 % 64, 128 + n / 64 % 64, 128 + n % 64]

/-- UTF-8 bytes of a Lean string literal; used to write the byte-level
string constants appearing in the scripts. -/
def bs (s : String) : List Nat :=
  s.data.foldr (fun c acc => utf8EncodeNat c.toNat ++ acc) []

/-- JSON values as handled by the scripts.  Credential offers, token
responses and credential responses are built from objects, arrays,
strings, booleans and null; numeric literals do not occur in any of the
payloads the claims are about, so the value type covers the
object/array/string/bool/null fragment of JSON.  Strings are UTF-8 byte
lists. -/
inductive Json : Type where
  | str (s : List Nat)
  | bool (b : Bool)
  | null
  | arr (l : List Json)
  | obj (fields : List (List Nat × Json))

mutual

/-- Structural equality test on JSON values. -/
def Json.beq : Json → Json → Bool
  | .str a, .str b => a = b
  | .bool a, .bool b => a = b
  | .null, .null => true
  | .arr a, .arr b => Json.beqList a b
  | .obj a, .obj b => Json.beqFields a b
  | _, _ => false

/-- Structural equality test on JSON arrays. -/
def Json.beqList : List Json → List Json → Bool
  | [], [] => true
  | a :: as, b :: bs2 => Json.beq a b && Json.beqList as bs2
  | _, _ => false

/-- Structural equality test on JSON object field lists. -/
def Json.beqFields : List (List Nat × Json) → List (List Nat × Json) → Bool
  | [], [] => true
  | (k, v) :: as, (k2, v2) :: bs2 =>
      decide (k = k2) && Json.beq v v2 && Json.beqFields as bs2
  | _, _ => false

end

theorem Json.beqList_iff (l m : List Json)
    (ih : ∀ x ∈ l, ∀ y : Json, Json.beq x y = true ↔ x = y) :
    Json.beqList l m = true ↔ l = m := by
  induction l generalizing m with
  | nil => cases m <;> simp [Json.beqList]
  | cons a as iha =>
      cases m with
      | nil => simp [Json.beqList]
      | cons b bs2 =>
          simp only [Json.beqList, Bool.and_eq_true, List.cons.injEq]
          rw [ih a (by simp), iha]
          intro x hx
          exact ih x (by simp [hx])

theorem Json.beqFields_iff (l m : List (List Nat × Json))
    (ih : ∀ p ∈ l, ∀ y : Json, Json.beq p.2 y = true ↔ p.2 = y) :
    Json.beqFields l m = true ↔ l = m := by
  induction l generalizing m with
  | nil => cases m <;> simp [Json.beqFields]
  | cons a as iha =>
      cases m with
      | nil => simp [Json.beqFields]
      | cons b bs2 =>
          obtain ⟨k, v⟩ := a
          obtain ⟨k2, v2⟩ := b
          simp only [Json.beqFields, Bool.and_eq_true, decide_eq_true_eq,
            List.cons.injEq, Prod.mk.injEq]
          have h1 := ih ⟨k, v⟩ (by simp)
          have h2 := iha bs2 (fun p hp => ih p (by simp [hp]))
          rw [h1, h2]

theorem Json.beq_iff_aux :
    ∀ n (a b : Json), sizeOf a ≤ n → (Json.beq a b = true ↔ a = b) := by
  intro n
  induction n with
  | zero =>
      intro a b h
      exfalso
      cases a <;> simp at h
  | succ n ih =>
      intro a b h
      cases a with
      | str s => cases b <;> simp [Json.beq]
      | bool v => cases b <;> simp [Json.beq]
      | null => cases b <;> simp [Json.beq]
      | arr l =>
          cases b <;> simp only [Json.beq, Bool.false_eq_true, false_iff] <;>
            try exact fun hc => Json.noConfusion hc
          case arr m =>
            rw [Json.beqList_iff l m]
            · simp
            · intro x hx y
              apply ih
              have hx2 := List.sizeOf_lt_of_mem hx
              simp only [Json.arr.sizeOf_spec] at h
              omega
      | obj fs =>
          cases b <;> simp only [Json.beq, Bool.false_eq_true, false_iff] <;>
            try exact fun hc => Json.noConfusion hc
          case obj gs =>
            rw [Json.beqFields_iff fs gs]
            · simp
            · intro p hp y
              apply ih
              obtain ⟨k, v⟩ := p
              have hp2 := List.sizeOf_lt_of_mem hp
              simp only [Prod.mk.sizeOf_spec] at hp2
              simp only [Json.obj.sizeOf_spec] at h
              simp only
              omega

instance : DecidableEq Json := fun a b =>
  decidable_of_iff (Json.beq a b = true) (Json.beq_iff_aux (sizeOf a) a b le_rfl)

/-- JavaScript property access `j[k]` on a JSON value: defined (i.e. not
`undefined`) only on objects having the key; the first binding wins, as
in a parsed JSON object. -/
def jget (j : Json) (k : List Nat) : Option Json :=
  match j with
  | .obj fields => (fields.find? (fun p => p.1 = k)).map (·.2)
  | _ => none

/-- JavaScript truthiness of a JSON value: empty strings, `false` and
`null` are falsy; objects and arrays are always truthy. -/
def jsTruthy (j : Json) : Bool :=
  match j with
  | .str s => !s.isEmpty
  | .bool b => b
  | .null => false
  | .arr _ => true
  | .obj _ => true

/-- Truthiness of a possibly-`undefined` JavaScript value (`none` models
`undefined`). -/
def jsTruthyOpt (j : Option Json) : Bool :=
  match j with
  | some v => jsTruthy v
  | none => false

/-- `Object.entries` on a JSON value, as used on the
`credential_configurations_supported` object. -/
def jentries (j : Json) : List (List Nat × Json) :=
  match j with
  | .obj fields => fields
  | _ => []

/-- Array indexing `a[0]`, as used on a configuration's `types` array. -/
def jindex (j : Json) (i : Nat) : Option Json :=
  match j with
  | .arr l => l.get? i
  | _ => none

/-- `JSON.stringify` escaping of one string byte: `"` and `\` get a
backslash escape, the control characters with short forms use them, the
remaining control characters become `\u00XX` (lowercase hex), and every
other byte is emitted verbatim. -/
def escByte (b : Nat) : List Nat :=
  if b = 34 then [92, 34]
  else if b = 92 then [92, 92]
  else if b = 8 then [92, 98]
  else if b = 9 then [92, 116]
  else if b = 10 then [92, 110]
  else if b = 12 then [92, 102]
  else if b = 13 then [92, 114]
  else if b < 32 then [92, 117, 48, 48, hexLower (b / 16), hexLower (b % 16)]
  else [b]

/-- `JSON.stringify` escaping of a string body. -/
def escBytes : List Nat → List Nat
  | [] => []
  | b :: t => escByte b ++ escBytes t

mutual

/-- `JSON.stringify` (no indent argument, as called by the scripts):
compact serialization, strings quoted and escaped.  The byte constants
are ASCII: 34 `"`, 44 `,`, 58 `:`, 91 `[`, 93 `]`, 123-125 braces. -/
def Json.stringify : Json → List Nat
  | .str s => 34 :: (escBytes s ++ [34])
  | .bool true => [116, 114, 117, 101]
  | .bool false => [102, 97, 108, 115, 101]
  | .null => [110, 117, 108, 108]
  | .arr [] => [91, 93]
  | .arr (x :: t) => 91 :: (Json.stringify x ++ Json.stringifyElems t)
  | .obj [] => [123, 125]
  | .obj (f :: t) => 123 :: (Json.stringifyField f ++ Json.stringifyFields t)

/-- Serialization of the remaining array elements, each preceded by a
comma, closed by `]`. -/
def Json.stringifyElems : List Json → List Nat
  | [] => [93]
  | x :: t => 44 :: (Json.stringify x ++ Json.stringifyElems t)

/-- Serialization of one object field: quoted key, colon, value. -/
def Json.stringifyField : List Nat × Json → List Nat
  | (k, v) => 34 :: (escBytes k ++ 34 :: 58 :: Json.stringify v)

/-- Serialization of the remaining object fields, each preceded by a
comma, closed by the closing brace. -/
def Json.stringifyFields : List (List Nat × Json) → List Nat
  | [] => [125]
  | f :: t => 44 :: (Json.stringifyField f ++ Json.stringifyFields t)

end

mutual

/-- Node-count measure used as parser fuel bound. -/
def Json.jsize : Json → Nat
  | .str _ => 1
  | .bool _ => 1
  | .null => 1
  | .arr l => 1 + Json.jsizeElems l
  | .obj fs => 1 + Json.jsizeFields fs

/-- Measure of an element list. -/
def Json.jsizeElems : List Json → Nat
  | [] => 1
  | x :: t => 1 + Json.jsize x + Json.jsizeElems t

/-- Measure of a field list. -/
def Json.jsizeFields : List (List Nat × Json) → Nat
  | [] => 1
  | f :: t => 1 + Json.jsize f.2 + Json.jsizeFields t

end

/-- Value of a two-character JSON string escape (`\"`, `\\`, `\/`, `\b`,
`\t`, `\n`, `\f`, `\r`). -/
def unescape (e : Nat) : Option Nat :=
  if e = 34 then some 34
  else if e = 92 then some 92
  else if e = 47 then some 47
  else if e = 98 then some 8
  else if e = 116 then some 9
  else if e = 110 then some 10
  else if e = 102 then some 12
  else if e = 114 then some 13
  else none

/-- Parse a JSON string body (the opening quote already consumed):
unescapes the standard escapes, `\uXXXX` becomes the UTF-8 bytes of the
code point (surrogate pairs are not recombined, as no payload relevant
here contains them), and stops at the closing quote. -/
def parseStr : List Nat → Option (List Nat × List Nat)
  | [] => none
  | c :: r =>
    if c = 34 then some ([], r)
    else if c = 92 then
      match r with
      | [] => none
      | e :: r2 =>
        if e = 117 then
          match r2 with
          | a :: b :: c2 :: d :: r3 =>
              if isHexDigit a && isHexDigit b && isHexDigit c2 && isHexDigit d then
                (parseStr r3).map (fun p =>
                  (utf8EncodeNat
                    (hexVal a * 4096 + hexVal b * 256 + hexVal c2 * 16 + hexVal d)
                      ++ p.1, p.2))
              else none
          | _ => none
        else
          match unescape e with
          | some b => (parseStr r2).map (fun p => (b :: p.1, p.2))
          | none => none
    else (parseStr r).map (fun p => (c :: p.1, p.2))

mutual

/-- Fueled recursive-descent parser for the JSON fragment produced by
the serializers at play (whitespace-free, as `JSON.stringify` and the
issuer emit it; numeric literals do not occur in the payloads).  Models
`JSON.parse` on those inputs; any unsupported input yields `none`, the
model of a `SyntaxError`. -/
def parseValue : Nat → List Nat → Option (Json × List Nat)
  | 0, _ => none
  | fuel + 1, cs =>
    match cs with
    | 34 :: r => (parseStr r).map (fun p => (.str p.1, p.2))
    | 116 :: 114 :: 117 :: 101 :: r => some (.bool true, r)
    | 102 :: 97 :: 108 :: 115 :: 101 :: r => some (.bool false, r)
    | 110 :: 117 :: 108 :: 108 :: r => some (.null, r)
    | 91 :: r =>
        (match r with
        | 93 :: r2 => some (.arr [], r2)
        | _ => (parseElems fuel r).map (fun p => (.arr p.1, p.2)))
    | 123 :: r =>
        (match r with
        | 125 :: r2 => some (.obj [], r2)
        | _ => (parseFields fuel r).map (fun p => (.obj p.1, p.2)))
    | _ => none

/-- Parse one or more comma-separated array elements and the closing
bracket. -/
def parseElems : Nat → List Nat → Option (List Json × List Nat)
  | 0, _ => none
  | fuel + 1, cs =>
    match parseValue fuel cs with
    | none => none
    | some (j, r) =>
      match r with
      | 44 :: r2 => (parseElems fuel r2).map (fun p => (j :: p.1, p.2))
      | 93 :: r2 => some ([j], r2)
      | _ => none

/-- Parse one or more comma-separated object fields and the closing
brace. -/
def parseFields : Nat → List Nat → Option (List (List Nat × Json) × List Nat)
  | 0, _ => none
  | fuel + 1, cs =>
    match cs with
    | 34 :: r =>
      match parseStr r with
      | none => none
      | some (k, r2) =>
        match r2 with
        | 58 :: r3 =>
          match parseValue fuel r3 with
          | none => none
          | some (v, r4) =>
            match r4 with
            | 44 :: r5 => (parseFields fuel r5).map (fun p => ((k, v) :: p.1, p.2))
            | 125 :: r5 => some ([(k, v)], r5)
            | _ => none
        | _ => none
    | _ => none

end

/-- `JSON.parse` on a byte string: a full parse of the input with no
trailing bytes; `none` models a thrown `SyntaxError`. -/
def Json.parse (s : List Nat) : Option Json :=
  match parseValue (s.length + 1) s with
  | some (j, []) => some j
  | _ => none

/-- Bytes left unescaped by `encodeURIComponent`:
`A-Z a-z 0-9 - _ . ! ~ * ' ( )`. -/
def isUnreservedByte (b : Nat) : Bool :=
  decide ((48 ≤ b ∧ b ≤ 57) ∨ (65 ≤ b ∧ b ≤ 90) ∨ (97 ≤ b ∧ b ≤ 122) ∨
    b = 45 ∨ b = 95 ∨ b = 46 ∨ b = 33 ∨ b = 126 ∨ b = 42 ∨
    b = 39 ∨ b = 40 ∨ b = 41)

/-- `encodeURIComponent` on one UTF-8 byte. -/
def encByte (b : Nat) : List Nat :=
  if isUnreservedByte b then [b] else [37, hexUpper (b / 16), hexUpper (b % 16)]

/-- `encodeURIComponent` over the UTF-8 bytes of a string. -/
def encodeURIComponent : List Nat → List Nat
  | [] => []
  | b :: t => encByte b ++ encodeURIComponent t

/-- `decodeURIComponent` over UTF-8 bytes: every `%XX` escape becomes the
byte `XX`; a `%` not followed by two hexadecimal digits raises
`URIError`, modelled as `none`.  (The real function additionally rejects
byte sequences that are not valid UTF-8; no input considered here is
affected.) -/
def decodeURIComponent : List Nat → Option (List Nat)
  | [] => some []
  | 37 :: r =>
      match r with
      | a :: b :: r2 =>
          if isHexDigit a && isHexDigit b then
            (decodeURIComponent r2).map (fun t => (hexVal a * 16 + hexVal b) :: t)
          else none
      | _ => none
  | c :: r => (decodeURIComponent r).map (fun t => c :: t)

/-- The `application/x-www-form-urlencoded` decode applied by
`URLSearchParams` to each key and value: `+` becomes a space, valid
`%XX` escapes become the byte, and malformed escapes are kept
verbatim (the decode is lenient, unlike `decodeURIComponent`). -/
def uspDecode : List Nat → List Nat
  | [] => []
  | 37 :: a :: b :: r =>
      if isHexDigit a && isHexDigit b then
        (hexVal a * 16 + hexVal b) :: uspDecode r
      else 37 :: uspDecode (a :: b :: r)
  | c :: r => (if c = 43 then 32 else c) :: uspDecode r

/-- JavaScript `String.prototype.split` on a single separator byte:
keeps empty segments, as the scripts rely on `split(sep)[1]`. -/
def jsSplit (sep : Nat) : List Nat → List (List Nat)
  | [] => [[]]
  | c :: r =>
    let rest := jsSplit sep r
    if c = sep then [] :: rest
    else
      match rest with
      | h :: t => (c :: h) :: t
      | [] => [[c]]

/-- `offerUrl.split(sep)[1] || ''` at byte level with `sep` = `?` (63):
the segment between the first and second question marks, or empty. -/
def queryOf (url : List Nat) : List Nat :=
  ((jsSplit 63 url).get? 1).getD []

/-- Split a `key=value` segment at its first `=` (61); a segment without
`=` yields an empty value, as `URLSearchParams` does. -/
def splitFirstEq : List Nat → List Nat × List Nat
  | [] => ([], [])
  | c :: r =>
    if c = 61 then ([], r)
    else
      let p := splitFirstEq r
      (c :: p.1, p.2)

/-- `new URLSearchParams(query).get(name)`: the query splits on `&`
(38), empty segments are dropped, keys and values are form-urlencoded
decoded, and the first pair whose decoded key equals `name` supplies the
result. -/
def getParam (query name : List Nat) : Option (List Nat) :=
  let pairs := (jsSplit 38 query).filterMap
    (fun seg => if seg.isEmpty then none else some (splitFirstEq seg))
  (pairs.find? (fun p => uspDecode p.1 = name)).map (fun p => uspDecode p.2)

/-- Truthiness of a possibly-absent JavaScript string: `undefined` and
the empty string are falsy. -/
def jsTruthyBytes (o : Option (List Nat)) : Bool :=
  match o with
  | some v => !v.isEmpty
  | none => false

/-- A thrown JavaScript error as the flow observes it: an axios error
carrying an HTTP response (`e.response.status` / `e.response.data`), or
any other thrown error, identified by its message. -/
inductive JsErr : Type where
  | http (status : Nat) (body : Json)
  | thrown (msg : String)
  deriving DecidableEq

/-- `parseCredentialOfferUrl` of the end-to-end script (and the inline
branch of `PassportMDocIssuer.parseCredentialOffer`): take the text
after the first `?`, read the `credential_offer` query parameter —
which `URLSearchParams` already percent-decodes — then apply
`decodeURIComponent` to it a second time and `JSON.parse` the result. -/
def parseCredentialOfferUrl (offerUrl : List Nat) : Except JsErr Json :=
  let raw := getParam (queryOf offerUrl) (bs "credential_offer")
  match raw with
  | some v =>
      if v.isEmpty then .error (.thrown "credential_offer not found")
      else
        match decodeURIComponent v with
        | none => .error (.thrown "URIError: URI malformed")
        | some decoded =>
            match Json.parse decoded with
            | none => .error (.thrown "SyntaxError: Unexpected token in JSON")
            | some j => .ok j
  | none => .error (.thrown "credential_offer not found")

/-- The claim's encode-and-serialize direction: serialize the offer with
`JSON.stringify`, `encodeURIComponent` the JSON, and place it in the
`credential_offer` query parameter of an offer URL (the shape shown in
the script's comment). -/
def encodeOfferUrl (offer : Json) : List Nat :=
  bs "openid-credential-offer://localhost/" ++
    63 :: (bs "credential_offer=" ++ encodeURIComponent (Json.stringify offer))

instance {ε α : Type} [DecidableEq ε] [DecidableEq α] :
    DecidableEq (Except ε α) := fun x y =>
  match x, y with
  | .ok a, .ok b =>
      if h : a = b then isTrue (by rw [h])
      else isFalse (fun hc => h (by cases hc; rfl))
  | .error a, .error b =>
      if h : a = b then isTrue (by rw [h])
      else isFalse (fun hc => h (by cases hc; rfl))
  | .ok _, .error _ => isFalse (fun hc => Except.noConfusion hc)
  | .error _, .ok _ => isFalse (fun hc => Except.noConfusion hc)

/-- The retry loop's observable outcome: its returned value (`.ok none`
models the `undefined` a zero-attempt call would return), the sleeps it
performed, and how many fetch attempts it made. -/
structure RetryOutcome where
  result : Except JsErr (Option Json)
  delays : List Nat
  attemptsMade : Nat
  deriving DecidableEq

/-- One iteration of `fetchCredentialOfferWithRetry`'s `for` loop at
index `i` with `remaining = attempts - i` iterations left: try the
fetch; on failure rethrow if this was the last attempt (`i ===
attempts-1`, i.e. `remaining = 1`), otherwise sleep `delayMs` and
continue.  `remaining = 0` is the loop falling through, returning
`undefined`. -/
def fetchRetryGo (fetch : Nat → Except JsErr Json) (delayMs : Nat) :
    Nat → Nat → RetryOutcome
  | _, 0 => { result := .ok none, delays := [], attemptsMade := 0 }
  | i, remaining + 1 =>
    match fetch i with
    | .ok d => { result := .ok (some d), delays := [], attemptsMade := 1 }
    | .error e =>
      if remaining = 0 then
        { result := .error e, delays := [], attemptsMade := 1 }
      else
        let o := fetchRetryGo fetch delayMs (i + 1) remaining
        { result := o.result, delays := delayMs :: o.delays,
          attemptsMade := o.attemptsMade + 1 }

/-- `fetchCredentialOfferWithRetry(offerUri, attempts, delayMs)`.  The
script declares the parameter defaults `attempts = 5`, `delayMs = 500`
and every call site uses them. -/
def fetchCredentialOfferWithRetry (fetch : Nat → Except JsErr Json)
    (attempts delayMs : Nat) : RetryOutcome :=
  fetchRetryGo fetch delayMs 0 attempts

/-- The `attempts = 5` default of `fetchCredentialOfferWithRetry`. -/
def defaultRetryAttempts : Nat := 5

/-- The `delayMs = 500` default of `fetchCredentialOfferWithRetry`. -/
def defaultRetryDelayMs : Nat := 500

/-- `resolveOfferIfUri`: use the inline `credential_offer` parameter if
it is truthy, otherwise fetch the `credential_offer_uri` indirection
with the bounded retry, otherwise throw.  `fetch u i` models the `i`-th
`axios.get(u)` attempt. -/
def resolveOfferIfUri (fetch : List Nat → Nat → Except JsErr Json)
    (offerUrl : List Nat) : RetryOutcome :=
  let query := queryOf offerUrl
  if jsTruthyBytes (getParam query (bs "credential_offer")) then
    { result := (parseCredentialOfferUrl offerUrl).map some, delays := [],
      attemptsMade := 0 }
  else
    match getParam query (bs "credential_offer_uri") with
    | some u =>
        if u.isEmpty then
          { result := .error (.thrown "No credential_offer or credential_offer_uri"),
            delays := [], attemptsMade := 0 }
        else fetchCredentialOfferWithRetry (fetch u) defaultRetryAttempts defaultRetryDelayMs
    | none =>
        { result := .error (.thrown "No credential_offer or credential_offer_uri"),
          delays := [], attemptsMade := 0 }

/-- JavaScript `a && b` on possibly-undefined values: the left operand
if it is falsy, otherwise the right. -/
def jsAnd (a b : Option Json) : Option Json :=
  if jsTruthyOpt a then b else a

/-- JavaScript `a || b` on possibly-undefined values: the left operand
if it is truthy, otherwise the right (even when the right is falsy). -/
def jsOr (a b : Option Json) : Option Json :=
  if jsTruthyOpt a then a else b

/-- Protected header of the proof-of-possession JWT. -/
structure ProofHeader where
  alg : List Nat
  typ : List Nat
  jwk : Json
  deriving DecidableEq

/-- Claims set of the proof-of-possession JWT. -/
structure ProofClaims where
  aud : List Nat
  iat : Nat
  nonce : Json
  deriving DecidableEq

/-- A signed proof-of-possession JWT, modelled by its header and claims
set; the EdDSA signature itself is outside the model (the claims are
about the claims set). -/
structure ProofJwt where
  header : ProofHeader
  payload : ProofClaims
  deriving DecidableEq

/-- `createProofOfPossession(holderKey, audience, nonce)`: a `SignJWT`
over `{aud, iat, nonce}` with header
`{alg: EdDSA, typ: openid4vci-proof+jwt, jwk: <holder public JWK>}`.
The chained `.setIssuedAt()` overwrites the explicitly passed `iat` with
the current clock; both are `now` here. -/
def createProofOfPossession (holderJwkPub : Json) (audience : List Nat)
    (nonce : Json) (now : Nat) : ProofJwt :=
  { header := { alg := bs "EdDSA", typ := bs "openid4vci-proof+jwt",
                jwk := holderJwkPub },
    payload := { aud := audience, iat := now, nonce := nonce } }

/-- The JSON body `requestCredential` posts to the credential
endpoint. -/
structure CredentialRequestPayload where
  credential_configuration_id : List Nat
  format : List Nat
  proof : Option (List Nat × ProofJwt)
  deriving DecidableEq

/-- The audience passed to `createProofOfPossession`:
`ISSUER_BASE/STANDARD_VERSION`. -/
def proofAudience : List Nat := bs "http://localhost:7002/draft13"

/-- The payload construction of `requestCredential`: base fields always,
and a `proof` member `{proof_type: jwt, jwt: <signed proof>}` exactly
when `tokenResponse.c_nonce` is truthy. -/
def requestCredentialPayload (tokenResponse : Json)
    (credentialConfigurationId : List Nat) (holderJwkPub : Json)
    (now : Nat) : CredentialRequestPayload :=
  let base : CredentialRequestPayload :=
    { credential_configuration_id := credentialConfigurationId,
      format := bs "jwt_vc_json", proof := none }
  match jget tokenResponse (bs "c_nonce") with
  | some v =>
      if jsTruthy v then
        { base with proof := some (bs "jwt",
            createProofOfPossession holderJwkPub proofAudience v now) }
      else base
  | none => base

/-- The code extraction of `main`:
`offer?.grants?.authorization_code?.issuer_state`, falling back — when
that is falsy — to
`offer.grants['urn:ietf:params:oauth:grant-type:pre-authorized_code'] ||
offer.grants['pre-authorized_code']` and then to that grant's
`pre_authorized_code || pre-authorized_code` member. -/
def extractCode (offer : Json) : Option Json :=
  let grants := jget offer (bs "grants")
  let issuerState :=
    (grants.bind (fun g => jget g (bs "authorization_code"))).bind
      (fun a => jget a (bs "issuer_state"))
  if jsTruthyOpt issuerState then issuerState
  else
    let grant := jsAnd grants
      (jsOr
        (grants.bind (fun g =>
          jget g (bs "urn:ietf:params:oauth:grant-type:pre-authorized_code")))
        (grants.bind (fun g => jget g (bs "pre-authorized_code"))))
    jsAnd grant
      (jsOr
        (grant.bind (fun g => jget g (bs "pre_authorized_code")))
        (grant.bind (fun g => jget g (bs "pre-authorized_code"))))

/-- The credential extraction of `main`:
`credentialResp.credential || credentialResp.jwt || credentialResp.vc`. -/
def extractCredential (resp : Json) : Option Json :=
  jsOr (jsOr (jget resp (bs "credential")) (jget resp (bs "jwt")))
    (jget resp (bs "vc"))

/-- The configuration predicate of `main`'s selection loop:
`conf.format === 'jwt_vc_json' || conf.format === 'jwt_vc'`. -/
def fmtMatches (conf : Json) : Bool :=
  decide (jget conf (bs "format") = some (.str (bs "jwt_vc_json")) ∨
    jget conf (bs "format") = some (.str (bs "jwt_vc")))

/-- The `for`-loop over `Object.entries(configs)` with `break` on the
first matching entry. -/
def pickLoop : List (List Nat × Json) → Option (List Nat × Json)
  | [] => none
  | e :: t => if fmtMatches e.2 then some e else pickLoop t

/-- The selection as a whole: the loop result, then
`if (!pickedId) { [id, conf] = entries[0] }` — a truthiness test, so a
matching entry whose identifier is the empty string is also replaced by
the first entry. -/
def pickConfig (entries : List (List Nat × Json)) : Option (List Nat × Json) :=
  match pickLoop entries with
  | some e => if e.1.isEmpty then entries.head? else some e
  | none => entries.head?

/-- The environment of one run: the response (or thrown error) each
network endpoint would give, the holder key, and the clock.  `fetchOffer
u i` is the `i`-th retry attempt of `axios.get(u)`. -/
structure Env where
  discover : Except JsErr Json
  issue : Except JsErr Json
  fetchOffer : List Nat → Nat → Except JsErr Json
  token : Except JsErr Json
  credential : Except JsErr Json
  verify : Except JsErr Json
  holderJwkPub : Json
  now : Nat

/-- The network requests `main` can issue, in order of the flow. -/
inductive Call : Type where
  | metaFetch
  | issuePost
  | offerFetch
  | tokenPost
  | credentialPost
  | verifyPost
  deriving DecidableEq

/-- Observable outcome of a run of `main`: the process exit code, what
the catch block printed when the error carried an HTTP response, the
thrown error (if any), whether the missing-credential warning was
printed, and the network requests issued. -/
structure RunResult where
  exitCode : Nat
  httpPrinted : Option (Nat × Json)
  err : Option JsErr
  warnedNoCredential : Bool
  calls : List Call
  deriving DecidableEq

/-- The catch block of `main`: print `HTTP Error: status data` when
`e.response` exists, then `process.exit(1)`. -/
def failRun (warned : Bool) (calls : List Call) (e : JsErr) : RunResult :=
  { exitCode := 1,
    httpPrinted := match e with | .http s b => some (s, b) | .thrown _ => none,
    err := some e, warnedNoCredential := warned, calls := calls }

/-- The `main` function of the end-to-end script as a function of its
environment: discovery, configuration selection, issuance, offer
resolution, code extraction, token exchange, credential request,
credential extraction (soft warning when absent), verification session.
The first thrown error reaches the catch block and exits 1; falling off
the end of `main` lets the process exit 0. -/
def runMain (env : Env) : RunResult :=
  match env.discover with
  | .error e => failRun false [.metaFetch] e
  | .ok meta =>
    let configs := match jget meta (bs "credential_configurations_supported") with
      | some v => if jsTruthy v then v else .obj []
      | none => .obj []
    let entries := jentries configs
    match entries with
    | [] => failRun false [.metaFetch] (.thrown "No credential configurations discovered")
    | e0 :: rest0 =>
      let picked := (pickConfig (e0 :: rest0)).getD e0
      match env.issue with
      | .error e => failRun false [.metaFetch, .issuePost] e
      | .ok issuanceData =>
        match issuanceData with
        | .str issuanceUrl =>
          let ro := resolveOfferIfUri env.fetchOffer issuanceUrl
          let callsR := [Call.metaFetch, .issuePost] ++
            List.replicate ro.attemptsMade .offerFetch
          match ro.result with
          | .error e => failRun false callsR e
          | .ok offerOpt =>
            let offer := offerOpt.getD .null
            let code := extractCode offer
            if jsTruthyOpt code then
              match env.token with
              | .error e => failRun false (callsR ++ [.tokenPost]) e
              | .ok tokenResp =>
                let _payload := requestCredentialPayload tokenResp picked.1
                  env.holderJwkPub env.now
                match env.credential with
                | .error e => failRun false (callsR ++ [.tokenPost, .credentialPost]) e
                | .ok credentialResp =>
                  let credentialJwt := extractCredential credentialResp
                  let callsC := callsR ++ [Call.tokenPost, .credentialPost]
                  let finishVerify := fun (warned : Bool) =>
                    match env.verify with
                    | .error e => failRun warned (callsC ++ [.verifyPost]) e
                    | .ok _ =>
                        { exitCode := 0, httpPrinted := none, err := none,
                          warnedNoCredential := warned,
                          calls := callsC ++ [.verifyPost] }
                  if jsTruthyOpt credentialJwt then
                    match credentialJwt with
                    | some (.str _) => finishVerify false
                    | _ => failRun false callsC
                        (.thrown "TypeError: credentialJwt.substring is not a function")
                  else finishVerify true
            else failRun false callsR
              (.thrown "Pre-authorized or authorization code not found in offer")
        | _ => failRun false [.metaFetch, .issuePost]
            (.thrown "TypeError: offerUrl.split is not a function")

/-! ## Claims C3, C4, C9: the proof-of-possession conditional -/

/-- C3: if the access-token response contains a (non-empty) `c_nonce`,
the proof-of-possession JWT carried by the credential-request payload
has a `nonce` claim byte-for-byte equal to the server-supplied
`c_nonce`, copied verbatim. -/
theorem c3_nonce_copied_verbatim (tokenResponse : Json) (n ccid : List Nat)
    (holderJwkPub : Json) (now : Nat)
    (h : jget tokenResponse (bs "c_nonce") = some (.str n)) (hn : n ≠ []) :
    ∃ p : ProofJwt,
      (requestCredentialPayload tokenResponse ccid holderJwkPub now).proof =
        some (bs "jwt", p) ∧ p.payload.nonce = .str n := by
  refine ⟨createProofOfPossession holderJwkPub proofAudience (.str n) now, ?_, rfl⟩
  simp [requestCredentialPayload, h, jsTruthy, hn]

theorem c3_witness :
    jget (Json.obj [(bs "access_token", .str (bs "tok1")),
        (bs "c_nonce", .str (bs "n1"))]) (bs "c_nonce") = some (.str (bs "n1")) ∧
    bs "n1" ≠ [] ∧
    ∃ p : ProofJwt,
      (requestCredentialPayload
        (Json.obj [(bs "access_token", .str (bs "tok1")),
          (bs "c_nonce", .str (bs "n1"))]) (bs "cfg") .null 7).proof =
        some (bs "jwt", p) ∧ p.payload.nonce = .str (bs "n1") :=
  ⟨by decide, by decide,
    c3_nonce_copied_verbatim _ _ _ _ _ (by decide) (by decide)⟩

/-- C4: if the access-token response has no `c_nonce` member, the
credential-request payload carries no `proof` field. -/
theorem c4_no_cnonce_no_proof (tokenResponse : Json) (ccid : List Nat)
    (holderJwkPub : Json) (now : Nat)
    (h : jget tokenResponse (bs "c_nonce") = none) :
    (requestCredentialPayload tokenResponse ccid holderJwkPub now).proof = none := by
  simp [requestCredentialPayload, h]

theorem c4_witness :
    jget (Json.obj [(bs "access_token", .str (bs "tok1"))]) (bs "c_nonce") = none ∧
    (requestCredentialPayload (Json.obj [(bs "access_token", .str (bs "tok1"))])
      (bs "cfg") .null 7).proof = none :=
  ⟨by decide, c4_no_cnonce_no_proof _ _ _ _ (by decide)⟩

/-- C9: a `c_nonce` key bound to the empty string is treated as absent
(the guard is a truthiness test), so no `proof` field is attached even
though the key is present. -/
theorem c9_empty_cnonce_no_proof (tokenResponse : Json) (ccid : List Nat)
    (holderJwkPub : Json) (now : Nat)
    (h : jget tokenResponse (bs "c_nonce") = some (.str [])) :
    (requestCredentialPayload tokenResponse ccid holderJwkPub now).proof = none := by
  simp [requestCredentialPayload, h, jsTruthy]

theorem c9_witness :
    jget (Json.obj [(bs "access_token", .str (bs "tok1")),
      (bs "c_nonce", .str [])]) (bs "c_nonce") = some (.str []) ∧
    (requestCredentialPayload (Json.obj [(bs "access_token", .str (bs "tok1")),
      (bs "c_nonce", .str [])]) (bs "cfg") .null 7).proof = none :=
  ⟨by decide, c9_empty_cnonce_no_proof _ _ _ _ (by decide)⟩

/-! ## Claim C10: preference order of the grant codes -/

/-- An offer carrying both an `authorization_code` grant whose
`issuer_state` is present (the empty string) and a pre-authorized-code
grant under the current urn key. -/
def c10Offer : Json :=
  .obj [(bs "grants", .obj
    [(bs "authorization_code", .obj [(bs "issuer_state", .str [])]),
     (bs "urn:ietf:params:oauth:grant-type:pre-authorized_code",
       .obj [(bs "pre_authorized_code", .str (bs "p"))])])]

/-- C10 counterexample: on an offer whose grants carry both an
`authorization_code.issuer_state` (present, the empty string) and a
pre-authorized-code grant, extraction does not pass the `issuer_state`
value to the token exchange: the falsy check sends it to the
pre-authorized keys instead. -/
theorem c10_counterexample :
    ((jget c10Offer (bs "grants")).bind
        (fun g => jget g (bs "authorization_code"))).bind
        (fun a => jget a (bs "issuer_state")) = some (.str []) ∧
    (jget c10Offer (bs "grants")).bind
        (fun g => jget g
          (bs "urn:ietf:params:oauth:grant-type:pre-authorized_code")) ≠ none ∧
    extractCode c10Offer = some (.str (bs "p")) ∧
    (Json.str (bs "p")) ≠ (Json.str []) :=
  ⟨by decide, by decide, by decide, by decide⟩

/-- C10 amended: extraction prefers `authorization_code.issuer_state`
when it is a non-empty string and passes that value as the code; the
pre-authorized grant-type keys decide the code exactly when
`issuer_state` is absent or falsy (e.g. the empty string), the urn key
taking precedence over the legacy key. -/
theorem c10_amended :
    (∀ (offer : Json) (s : List Nat),
      ((jget offer (bs "grants")).bind
          (fun g => jget g (bs "authorization_code"))).bind
          (fun a => jget a (bs "issuer_state")) = some (.str s) → s ≠ [] →
      extractCode offer = some (.str s)) ∧
    (∀ (offer grants : Json) (gr : List (List Nat × Json)) (c : List Nat),
      jsTruthyOpt (((jget offer (bs "grants")).bind
          (fun g => jget g (bs "authorization_code"))).bind
          (fun a => jget a (bs "issuer_state"))) = false →
      jget offer (bs "grants") = some grants →
      jget grants (bs "urn:ietf:params:oauth:grant-type:pre-authorized_code") =
        some (.obj gr) →
      jget (.obj gr) (bs "pre_authorized_code") = some (.str c) → c ≠ [] →
      extractCode offer = some (.str c)) ∧
    (∀ (offer grants : Json) (gr : List (List Nat × Json)) (c : List Nat),
      jsTruthyOpt (((jget offer (bs "grants")).bind
          (fun g => jget g (bs "authorization_code"))).bind
          (fun a => jget a (bs "issuer_state"))) = false →
      jget offer (bs "grants") = some grants →
      jget grants (bs "urn:ietf:params:oauth:grant-type:pre-authorized_code") =
        none →
      jget grants (bs "pre-authorized_code") = some (.obj gr) →
      jget (.obj gr) (bs "pre_authorized_code") = none →
      jget (.obj gr) (bs "pre-authorized_code") = some (.str c) → c ≠ [] →
      extractCode offer = some (.str c)) := by
  refine ⟨?_, ?_, ?_⟩
  · intro offer s h hs
    simp only [extractCode, h]
    simp [jsTruthyOpt, jsTruthy, hs]
  · intro offer grants gr c hfalse hg hurn hcode hc
    have hobj : ∃ gfs, grants = Json.obj gfs := by
      cases grants <;> first
        | exact ⟨_, rfl⟩
        | simp [jget] at hurn
    obtain ⟨gfs, rfl⟩ := hobj
    simp only [extractCode, hg, Option.some_bind]
    simp only [hg, Option.some_bind] at hfalse
    rw [hfalse]
    simp only [Bool.false_eq_true, if_false, hurn]
    simp [jsAnd, jsOr, jsTruthyOpt, jsTruthy, hcode, hc]
  · intro offer grants gr c hfalse hg hurn hleg hn hcode hc
    have hobj : ∃ gfs, grants = Json.obj gfs := by
      cases grants <;> first
        | exact ⟨_, rfl⟩
        | simp [jget] at hleg
    obtain ⟨gfs, rfl⟩ := hobj
    simp only [extractCode, hg, Option.some_bind]
    simp only [hg, Option.some_bind] at hfalse
    rw [hfalse]
    simp only [Bool.false_eq_true, if_false, hurn, hleg]
    simp [jsAnd, jsOr, jsTruthyOpt, jsTruthy, hn, hcode, hc]

theorem c10_amended_witness :
    ((jget (Json.obj [(bs "grants", .obj [(bs "authorization_code",
        .obj [(bs "issuer_state", .str (bs "st1"))])])]) (bs "grants")).bind
        (fun g => jget g (bs "authorization_code"))).bind
        (fun a => jget a (bs "issuer_state")) = some (.str (bs "st1")) ∧
    bs "st1" ≠ [] ∧
    extractCode (Json.obj [(bs "grants", .obj [(bs "authorization_code",
        .obj [(bs "issuer_state", .str (bs "st1"))])])]) =
      some (.str (bs "st1")) :=
  ⟨by decide, by decide,
    c10_amended.1 _ _ (by decide) (by decide)⟩

/-! ## Claim C5: configuration selection -/

/-- The selection loop agrees with first-match search. -/
theorem pickLoop_eq_find (l : List (List Nat × Json)) :
    pickLoop l = l.find? (fun e => fmtMatches e.2) := by
  induction l with
  | nil => simp [pickLoop]
  | cons e t ih =>
      by_cases h : fmtMatches e.2 <;>
        simp [pickLoop, h, List.find?_cons, ih]

/-- C5 counterexample: a configuration map whose first format-matching
entry has the empty string as identifier.  The claim says selection
returns that first matching entry; the code's `if (!pickedId)` falsy
check discards it and returns the first entry overall. -/
theorem c5_counterexample :
    [((bs "a"), Json.obj [(bs "format", Json.str (bs "mso_mdoc"))]),
     (([] : List Nat), Json.obj [(bs "format", Json.str (bs "jwt_vc_json"))])].find?
        (fun e => fmtMatches e.2) =
      some (([] : List Nat), Json.obj [(bs "format", Json.str (bs "jwt_vc_json"))]) ∧
    pickConfig
      [((bs "a"), Json.obj [(bs "format", Json.str (bs "mso_mdoc"))]),
       (([] : List Nat), Json.obj [(bs "format", Json.str (bs "jwt_vc_json"))])] =
      some ((bs "a"), Json.obj [(bs "format", Json.str (bs "mso_mdoc"))]) ∧
    ((bs "a"), Json.obj [(bs "format", Json.str (bs "mso_mdoc"))]) ≠
      (([] : List Nat), Json.obj [(bs "format", Json.str (bs "jwt_vc_json"))]) :=
  ⟨by decide, by decide, by decide⟩

/-- C5 amended: on a non-empty configuration map, selection is
deterministic: it returns the first entry (in entry order) whose format
matches the requested `jwt_vc_json` family, provided that entry's
identifier is non-empty (an empty identifier fails the code's falsy
check); in every other case — no matching entry, or a matching entry
with empty identifier — it returns the first entry overall. -/
theorem c5_selection (entries : List (List Nat × Json)) (h : entries ≠ []) :
    (∀ e, entries.find? (fun x => fmtMatches x.2) = some e → e.1 ≠ [] →
      pickConfig entries = some e) ∧
    (entries.find? (fun x => fmtMatches x.2) = none →
      pickConfig entries = entries.head?) ∧
    (∀ e, entries.find? (fun x => fmtMatches x.2) = some e → e.1 = [] →
      pickConfig entries = entries.head?) ∧
    (∃ e, pickConfig entries = some e) := by
  obtain ⟨a, t, rfl⟩ := List.exists_cons_of_ne_nil h
  refine ⟨?_, ?_, ?_, ?_⟩
  · intro e hf he
    simp [pickConfig, pickLoop_eq_find, hf, he]
  · intro hf
    simp [pickConfig, pickLoop_eq_find, hf]
  · intro e hf he
    simp [pickConfig, pickLoop_eq_find, hf, he]
  · rcases hf : (a :: t).find? (fun x => fmtMatches x.2) with _ | e
    · exact ⟨a, by simp [pickConfig, pickLoop_eq_find, hf]⟩
    · by_cases he : e.1 = []
      · exact ⟨a, by simp [pickConfig, pickLoop_eq_find, hf, he]⟩
      · exact ⟨e, by simp [pickConfig, pickLoop_eq_find, hf, he]⟩

theorem c5_selection_witness :
    ([((bs "u"), Json.obj [(bs "format", Json.str (bs "jwt_vc_json"))])] :
        List (List Nat × Json)) ≠ [] ∧
    pickConfig [((bs "u"), Json.obj [(bs "format", Json.str (bs "jwt_vc_json"))])] =
      some ((bs "u"), Json.obj [(bs "format", Json.str (bs "jwt_vc_json"))]) :=
  ⟨by decide,
    (c5_selection _ (by decide)).1 _ (by decide) (by decide)⟩

/-! ## Claims C2, C6, C8: the run as a whole -/

/-- Every run either reaches the catch block (`failRun`) or falls off
the end of `main` successfully. -/
theorem runMain_cases (env : Env) :
    (∃ e w calls, runMain env = failRun w calls e) ∨
    (∃ w calls, runMain env =
      { exitCode := 0, httpPrinted := none, err := none,
        warnedNoCredential := w, calls := calls }) := by
  unfold runMain
  dsimp only
  repeat' split
  all_goals first
    | exact Or.inl ⟨_, _, _, rfl⟩
    | exact Or.inr ⟨_, _, rfl⟩

/-- When the offer's grants hold no `authorization_code.issuer_state`
and neither pre-authorized grant-type key, every candidate the code
extraction can produce is falsy. -/
theorem extractCode_falsy_of_absent (offer : Json)
    (hno1 : ((jget offer (bs "grants")).bind
        (fun g => jget g (bs "authorization_code"))).bind
        (fun a => jget a (bs "issuer_state")) = none)
    (hno2 : (jget offer (bs "grants")).bind
        (fun g => jget g
          (bs "urn:ietf:params:oauth:grant-type:pre-authorized_code")) = none)
    (hno3 : (jget offer (bs "grants")).bind
        (fun g => jget g (bs "pre-authorized_code")) = none) :
    jsTruthyOpt (extractCode offer) = false := by
  have hA : ∀ go : Option Json, jsTruthyOpt (jsAnd go none) = false := by
    intro go
    unfold jsAnd
    split_ifs with h
    · rfl
    · simpa using h
  have hB : ∀ go X : Option Json, jsTruthyOpt go = false →
      jsTruthyOpt (jsAnd go X) = false := by
    intro go X h
    unfold jsAnd
    rw [h]
    simpa using h
  have h0 : jsTruthyOpt (none : Option Json) = false := rfl
  have hOr : jsOr (none : Option Json) none = none := rfl
  simp only [extractCode, hno1, hno2, hno3, h0, hOr, Bool.false_eq_true, if_false]
  exact hB _ _ (hA _)

/-- C2: when the resolved offer's grants contain neither an
`authorization_code.issuer_state` nor a pre-authorized code under
either the legacy key or the current urn key, the run aborts with the
code-not-found error (the spec's `TokenExchangeError`) with exit code
1, and no request is ever made to the token endpoint. -/
theorem c2_no_code_aborts_before_token (env : Env) (meta cfgs : Json)
    (e0 : List Nat × Json) (rest0 : List (List Nat × Json)) (url : List Nat)
    (offer : Json)
    (hd : env.discover = .ok meta)
    (hc : jget meta (bs "credential_configurations_supported") = some cfgs)
    (hcT : jsTruthy cfgs = true)
    (he : jentries cfgs = e0 :: rest0)
    (hi : env.issue = .ok (.str url))
    (hr : (resolveOfferIfUri env.fetchOffer url).result = .ok (some offer))
    (hno1 : ((jget offer (bs "grants")).bind
        (fun g => jget g (bs "authorization_code"))).bind
        (fun a => jget a (bs "issuer_state")) = none)
    (hno2 : (jget offer (bs "grants")).bind
        (fun g => jget g
          (bs "urn:ietf:params:oauth:grant-type:pre-authorized_code")) = none)
    (hno3 : (jget offer (bs "grants")).bind
        (fun g => jget g (bs "pre-authorized_code")) = none) :
    (runMain env).err =
      some (.thrown "Pre-authorized or authorization code not found in offer") ∧
    (runMain env).exitCode = 1 ∧
    Call.tokenPost ∉ (runMain env).calls := by
  have hcode : jsTruthyOpt (extractCode offer) = false :=
    extractCode_falsy_of_absent offer hno1 hno2 hno3
  have hrun : runMain env = failRun false
      ([Call.metaFetch, .issuePost] ++
        List.replicate (resolveOfferIfUri env.fetchOffer url).attemptsMade .offerFetch)
      (.thrown "Pre-authorized or authorization code not found in offer") := by
    simp only [runMain, hd, hc, hcT, if_true, he, hi, hr, Option.getD_some, hcode,
      Bool.false_eq_true, if_false]
  rw [hrun]
  refine ⟨rfl, rfl, ?_⟩
  simp [failRun, List.mem_append, List.mem_replicate]

/-- A no-code environment for the C2 witness: the offer fetched through
the indirection uri has an empty `grants` object. -/
def c2Env : Env :=
  { discover := .ok (.obj [(bs "credential_configurations_supported",
      .obj [(bs "university-degree-jwt",
        .obj [(bs "format", .str (bs "jwt_vc_json"))])])]),
    issue := .ok (.str (bs "issue://x?credential_offer_uri=u")),
    fetchOffer := fun _ _ => .ok (.obj [(bs "grants", .obj [])]),
    token := .ok (.obj [(bs "access_token", .str (bs "tok1"))]),
    credential := .ok (.obj [(bs "credential", .str (bs "eyJabc"))]),
    verify := .ok (.obj []),
    holderJwkPub := .null, now := 0 }

theorem c2_witness :
    c2Env.discover = .ok (.obj [(bs "credential_configurations_supported",
      .obj [(bs "university-degree-jwt",
        .obj [(bs "format", .str (bs "jwt_vc_json"))])])]) ∧
    jget (.obj [(bs "credential_configurations_supported",
        .obj [(bs "university-degree-jwt",
          .obj [(bs "format", .str (bs "jwt_vc_json"))])])])
      (bs "credential_configurations_supported") =
      some (.obj [(bs "university-degree-jwt",
        .obj [(bs "format", .str (bs "jwt_vc_json"))])]) ∧
    (resolveOfferIfUri c2Env.fetchOffer
      (bs "issue://x?credential_offer_uri=u")).result =
      .ok (some (.obj [(bs "grants", .obj [])])) ∧
    ((jget (Json.obj [(bs "grants", .obj [])]) (bs "grants")).bind
        (fun g => jget g (bs "authorization_code"))).bind
        (fun a => jget a (bs "issuer_state")) = none ∧
    (runMain c2Env).err =
      some (.thrown "Pre-authorized or authorization code not found in offer") ∧
    (runMain c2Env).exitCode = 1 ∧
    Call.tokenPost ∉ (runMain c2Env).calls := by
  have h := c2_no_code_aborts_before_token c2Env
    (.obj [(bs "credential_configurations_supported",
      .obj [(bs "university-degree-jwt",
        .obj [(bs "format", .str (bs "jwt_vc_json"))])])])
    (.obj [(bs "university-degree-jwt",
      .obj [(bs "format", .str (bs "jwt_vc_json"))])])
    (bs "university-degree-jwt", .obj [(bs "format", .str (bs "jwt_vc_json"))])
    [] (bs "issue://x?credential_offer_uri=u") (.obj [(bs "grants", .obj [])])
    rfl (by decide) (by decide) (by decide) rfl (by decide) (by decide)
    (by decide) (by decide)
  exact ⟨rfl, by decide, by decide, by decide, h.1, h.2.1, h.2.2⟩

/-- C6: credential extraction probes `credential`, `jwt`, `vc` and
accepts whichever is populated, never requiring all three (first
conjunct, over responses whose credential-bearing fields are strings
when present, per the CredentialResponse data model); and when all
three are absent the run prints the soft warning and still proceeds to
the verification step instead of failing (second conjunct). -/
theorem c6_credential_extraction :
    (∀ resp : Json,
      (jget resp (bs "credential") = none ∨
        ∃ s, jget resp (bs "credential") = some (.str s)) →
      (jget resp (bs "jwt") = none ∨ ∃ s, jget resp (bs "jwt") = some (.str s)) →
      (jget resp (bs "vc") = none ∨ ∃ s, jget resp (bs "vc") = some (.str s)) →
      ((∃ s, jget resp (bs "credential") = some (.str s) ∧ s ≠ []) ∨
        (∃ s, jget resp (bs "jwt") = some (.str s) ∧ s ≠ []) ∨
        (∃ s, jget resp (bs "vc") = some (.str s) ∧ s ≠ [])) →
      ∃ s, extractCredential resp = some (.str s) ∧ s ≠ [] ∧
        (jget resp (bs "credential") = some (.str s) ∨
          jget resp (bs "jwt") = some (.str s) ∨
          jget resp (bs "vc") = some (.str s))) ∧
    (∀ (env : Env) (meta cfgs : Json) (e0 : List Nat × Json)
        (rest0 : List (List Nat × Json)) (url : List Nat) (offer tok resp : Json),
      env.discover = .ok meta →
      jget meta (bs "credential_configurations_supported") = some cfgs →
      jsTruthy cfgs = true →
      jentries cfgs = e0 :: rest0 →
      env.issue = .ok (.str url) →
      (resolveOfferIfUri env.fetchOffer url).result = .ok (some offer) →
      jsTruthyOpt (extractCode offer) = true →
      env.token = .ok tok →
      env.credential = .ok resp →
      jget resp (bs "credential") = none →
      jget resp (bs "jwt") = none →
      jget resp (bs "vc") = none →
      (runMain env).warnedNoCredential = true ∧
      Call.verifyPost ∈ (runMain env).calls) := by
  constructor
  · intro resp hty1 hty2 hty3 hpop
    rcases hty1 with h1 | ⟨s1, h1⟩
    · rcases hty2 with h2 | ⟨s2, h2⟩
      · rcases hty3 with h3 | ⟨s3, h3⟩
        · exfalso
          rcases hpop with ⟨s, hs, _⟩ | ⟨s, hs, _⟩ | ⟨s, hs, _⟩ <;> simp_all
        · by_cases h3e : s3 = []
          · exfalso
            subst h3e
            rcases hpop with ⟨s, hs, hne⟩ | ⟨s, hs, hne⟩ | ⟨s, hs, hne⟩ <;> simp_all
          · exact ⟨s3, by simp [extractCredential, h1, h2, h3, jsOr, jsTruthyOpt,
              jsTruthy, List.isEmpty_iff, h3e], h3e, Or.inr (Or.inr h3)⟩
      · by_cases h2e : s2 = []
        · subst h2e
          rcases hty3 with h3 | ⟨s3, h3⟩
          · exfalso
            rcases hpop with ⟨s, hs, hne⟩ | ⟨s, hs, hne⟩ | ⟨s, hs, hne⟩ <;> simp_all
          · by_cases h3e : s3 = []
            · exfalso
              subst h3e
              rcases hpop with ⟨s, hs, hne⟩ | ⟨s, hs, hne⟩ | ⟨s, hs, hne⟩ <;> simp_all
            · exact ⟨s3, by simp [extractCredential, h1, h2, h3, jsOr, jsTruthyOpt,
                jsTruthy, List.isEmpty_iff, h3e], h3e, Or.inr (Or.inr h3)⟩
        · exact ⟨s2, by simp [extractCredential, h1, h2, jsOr, jsTruthyOpt,
            jsTruthy, List.isEmpty_iff, h2e], h2e, Or.inr (Or.inl h2)⟩
    · by_cases h1e : s1 = []
      · subst h1e
        rcases hty2 with h2 | ⟨s2, h2⟩
        · rcases hty3 with h3 | ⟨s3, h3⟩
          · exfalso
            rcases hpop with ⟨s, hs, hne⟩ | ⟨s, hs, hne⟩ | ⟨s, hs, hne⟩ <;> simp_all
          · by_cases h3e : s3 = []
            · exfalso
              subst h3e
              rcases hpop with ⟨s, hs, hne⟩ | ⟨s, hs, hne⟩ | ⟨s, hs, hne⟩ <;> simp_all
            · exact ⟨s3, by simp [extractCredential, h1, h2, h3, jsOr, jsTruthyOpt,
                jsTruthy, List.isEmpty_iff, h3e], h3e, Or.inr (Or.inr h3)⟩
        · by_cases h2e : s2 = []
          · subst h2e
            rcases hty3 with h3 | ⟨s3, h3⟩
            · exfalso
              rcases hpop with ⟨s, hs, hne⟩ | ⟨s, hs, hne⟩ | ⟨s, hs, hne⟩ <;> simp_all
            · by_cases h3e : s3 = []
              · exfalso
                subst h3e
                rcases hpop with ⟨s, hs, hne⟩ | ⟨s, hs, hne⟩ | ⟨s, hs, hne⟩ <;> simp_all
              · exact ⟨s3, by simp [extractCredential, h1, h2, h3, jsOr, jsTruthyOpt,
                  jsTruthy, List.isEmpty_iff, h3e], h3e, Or.inr (Or.inr h3)⟩
          · exact ⟨s2, by simp [extractCredential, h1, h2, jsOr, jsTruthyOpt,
              jsTruthy, List.isEmpty_iff, h2e], h2e, Or.inr (Or.inl h2)⟩
      · exact ⟨s1, by simp [extractCredential, h1, jsOr, jsTruthyOpt,
          jsTruthy, List.isEmpty_iff, h1e], h1e, Or.inl h1⟩
  · intro env meta cfgs e0 rest0 url offer tok resp hd hc hcT he hi hr hcode ht
      hcred h1 h2 h3
    have hextract : extractCredential resp = none := by
      simp [extractCredential, h1, h2, h3, jsOr, jsTruthyOpt]
    have hJT : jsTruthyOpt (none : Option Json) = false := rfl
    cases hv : env.verify with
    | error e =>
        constructor <;>
          simp [runMain, hd, hc, hcT, he, hi, hr, Option.getD_some, hcode, ht,
            hcred, hextract, hJT, hv, failRun]
    | ok v =>
        constructor <;>
          simp [runMain, hd, hc, hcT, he, hi, hr, Option.getD_some, hcode, ht,
            hcred, hextract, hJT, hv, failRun]

theorem c6_witness :
    (jget (Json.obj [(bs "jwt", .str (bs "eyJxyz"))]) (bs "credential") = none ∨
      ∃ s, jget (Json.obj [(bs "jwt", .str (bs "eyJxyz"))]) (bs "credential") =
        some (.str s)) ∧
    (∃ s, jget (Json.obj [(bs "jwt", .str (bs "eyJxyz"))]) (bs "jwt") =
      some (.str s) ∧ s ≠ []) ∧
    (∃ s, extractCredential (Json.obj [(bs "jwt", .str (bs "eyJxyz"))]) =
      some (.str s) ∧ s ≠ [] ∧
      (jget (Json.obj [(bs "jwt", .str (bs "eyJxyz"))]) (bs "credential") =
          some (.str s) ∨
        jget (Json.obj [(bs "jwt", .str (bs "eyJxyz"))]) (bs "jwt") =
          some (.str s) ∨
        jget (Json.obj [(bs "jwt", .str (bs "eyJxyz"))]) (bs "vc") =
          some (.str s))) :=
  ⟨Or.inl (by decide), ⟨bs "eyJxyz", by decide, by decide⟩,
    c6_credential_extraction.1 _ (Or.inl (by decide))
      (Or.inr ⟨bs "eyJxyz", by decide⟩) (Or.inl (by decide))
      (Or.inr (Or.inl ⟨bs "eyJxyz", by decide, by decide⟩))⟩

/-- C8: whenever a step throws, the run exits 1 and — when the error
carries an HTTP response — the status and response body are printed by
the catch block; when no step throws, the run completes and the process
exits 0 with nothing printed by the catch block. -/
theorem c8_exit_discipline (env : Env) :
    (∀ e, (runMain env).err = some e →
      (runMain env).exitCode = 1 ∧
      ∀ s b, e = .http s b → (runMain env).httpPrinted = some (s, b)) ∧
    ((runMain env).err = none →
      (runMain env).exitCode = 0 ∧ (runMain env).httpPrinted = none) := by
  rcases runMain_cases env with ⟨e, w, calls, hrun⟩ | ⟨w, calls, hrun⟩
  · rw [hrun]
    constructor
    · intro e2 he2
      simp only [failRun, Option.some.injEq] at he2
      subst he2
      refine ⟨rfl, ?_⟩
      intro s b hb
      subst hb
      simp [failRun]
    · intro hnone
      simp [failRun] at hnone
  · rw [hrun]
    constructor
    · intro e2 he2
      simp at he2
    · intro _
      exact ⟨rfl, rfl⟩

/-- A failing environment for the C8 witness: discovery itself throws
with an HTTP response attached. -/
def c8Env : Env :=
  { discover := .error (.http 500 (.str (bs "boom"))),
    issue := .ok .null, fetchOffer := fun _ _ => .error (.thrown "x"),
    token := .ok .null, credential := .ok .null, verify := .ok .null,
    holderJwkPub := .null, now := 0 }

theorem c8_witness :
    (runMain c8Env).err = some (JsErr.http 500 (.str (bs "boom"))) ∧
    (runMain c8Env).exitCode = 1 ∧
    (runMain c8Env).httpPrinted = some (500, .str (bs "boom")) := by
  have h := (c8_exit_discipline c8Env).1 (JsErr.http 500 (.str (bs "boom")))
    (by decide)
  exact ⟨by decide, h.1, h.2 500 (.str (bs "boom")) rfl⟩

/-! ## Claim C7: bounded retry of the offer indirection -/

/-- The loop never makes more attempts than iterations remain, and every
sleep it performs is exactly `delayMs`. -/
theorem fetchRetryGo_bounds (fetch : Nat → Except JsErr Json) (delayMs : Nat) :
    ∀ remaining i, (fetchRetryGo fetch delayMs i remaining).attemptsMade ≤ remaining ∧
      ∀ d ∈ (fetchRetryGo fetch delayMs i remaining).delays, d = delayMs := by
  intro remaining
  induction remaining with
  | zero => intro i; simp [fetchRetryGo]
  | succ r ih =>
      intro i
      cases hf : fetch i with
      | ok d => simp [fetchRetryGo, hf]
      | error e =>
          by_cases hr0 : r = 0
          · simp [fetchRetryGo, hf, hr0]
          · have hrec := ih (i + 1)
            simp only [fetchRetryGo, hf]
            rw [if_neg hr0]
            dsimp only
            constructor
            · omega
            · intro d hd
              simp only [List.mem_cons] at hd
              rcases hd with rfl | hd
              · rfl
              · exact hrec.2 d hd

/-- When every attempt in the window fails, the loop makes all of them,
sleeps between consecutive ones, and rethrows the last attempt's
error. -/
theorem fetchRetryGo_exhaust (fetch : Nat → Except JsErr Json) (delayMs : Nat) :
    ∀ remaining i, 0 < remaining →
      (∀ j, i ≤ j → j < i + remaining → ∃ e, fetch j = .error e) →
      ∃ e, fetch (i + remaining - 1) = .error e ∧
        fetchRetryGo fetch delayMs i remaining =
          { result := .error e, delays := List.replicate (remaining - 1) delayMs,
            attemptsMade := remaining } := by
  intro remaining
  induction remaining with
  | zero => omega
  | succ r ih =>
      intro i _ hall
      obtain ⟨e, he⟩ := hall i (le_refl i) (by omega)
      by_cases hr0 : r = 0
      · subst hr0
        exact ⟨e, by simpa using he, by simp [fetchRetryGo, he]⟩
      · obtain ⟨e2, he2, hgo⟩ := ih (i + 1) (by omega)
          (fun j h1 h2 => hall j (by omega) (by omega))
        refine ⟨e2, ?_, ?_⟩
        · rw [show i + (r + 1) - 1 = i + 1 + r - 1 by omega]
          exact he2
        · have hrep : List.replicate r delayMs =
              delayMs :: List.replicate (r - 1) delayMs := by
            conv_lhs => rw [show r = (r - 1) + 1 by omega]
            rw [List.replicate_succ]
          simp only [fetchRetryGo, he]
          rw [if_neg hr0]
          rw [hgo]
          simp [hrep]

/-- When the first success comes at offset `k` inside the window, the
loop returns it after `k` failures and `k` sleeps. -/
theorem fetchRetryGo_success (fetch : Nat → Except JsErr Json) (delayMs : Nat) :
    ∀ k i remaining d, k < remaining →
      (∀ j, j < k → ∃ e, fetch (i + j) = .error e) →
      fetch (i + k) = .ok d →
      fetchRetryGo fetch delayMs i remaining =
        { result := .ok (some d), delays := List.replicate k delayMs,
          attemptsMade := k + 1 } := by
  intro k
  induction k with
  | zero =>
      intro i remaining d hlt _ hok
      obtain ⟨r, rfl⟩ := Nat.exists_eq_add_of_lt hlt
      simp only [Nat.add_zero] at hok
      simp [fetchRetryGo, hok]
  | succ k ih =>
      intro i remaining d hlt hfail hok
      obtain ⟨e, he⟩ := hfail 0 (by omega)
      simp only [Nat.add_zero] at he
      obtain ⟨r, hr⟩ : ∃ r, remaining = r + 1 := ⟨remaining - 1, by omega⟩
      subst hr
      have hrec := ih (i + 1) r d (by omega)
        (fun j hj => by
          obtain ⟨e2, he2⟩ := hfail (j + 1) (by omega)
          exact ⟨e2, by rw [show i + 1 + j = i + (j + 1) by omega]; exact he2⟩)
        (by rw [show i + 1 + k = i + (k + 1) by omega]; exact hok)
      have hrpos : r ≠ 0 := by omega
      simp [fetchRetryGo, he, hrpos, hrec, List.replicate_succ]

/-- C7: offer resolution of an indirection URI retries with the fixed
attempt count 5 and fixed delay 500 ms (never more than 5 attempts, all
sleeps 500 ms); it fails with the spec's `OfferResolutionError` (the
no-parameter throw) exactly in the no-parameter case, with no fetch
attempted; when the indirection uri is present and all 5 attempts fail,
the 5th attempt's error propagates after 4 sleeps of 500 ms; when an
attempt within the budget succeeds, its payload is returned; and a
truthy inline parameter short-circuits resolution to the parser with no
retries at all. -/
theorem c7_bounded_retry (fetch : List Nat → Nat → Except JsErr Json)
    (url : List Nat) :
    (defaultRetryAttempts = 5 ∧ defaultRetryDelayMs = 500) ∧
    ((resolveOfferIfUri fetch url).attemptsMade ≤ 5 ∧
      ∀ d ∈ (resolveOfferIfUri fetch url).delays, d = 500) ∧
    (jsTruthyBytes (getParam (queryOf url) (bs "credential_offer")) = false →
      jsTruthyBytes (getParam (queryOf url) (bs "credential_offer_uri")) = false →
      resolveOfferIfUri fetch url =
        { result := .error (.thrown "No credential_offer or credential_offer_uri"),
          delays := [], attemptsMade := 0 }) ∧
    (∀ u, jsTruthyBytes (getParam (queryOf url) (bs "credential_offer")) = false →
      getParam (queryOf url) (bs "credential_offer_uri") = some u → u ≠ [] →
      (∀ i, i < 5 → ∃ e, fetch u i = .error e) →
      ∃ e, fetch u 4 = .error e ∧
        (resolveOfferIfUri fetch url).result = .error e ∧
        (resolveOfferIfUri fetch url).delays = List.replicate 4 500 ∧
        (resolveOfferIfUri fetch url).attemptsMade = 5) ∧
    (∀ u k d, jsTruthyBytes (getParam (queryOf url) (bs "credential_offer")) = false →
      getParam (queryOf url) (bs "credential_offer_uri") = some u → u ≠ [] →
      k < 5 → (∀ j, j < k → ∃ e, fetch u j = .error e) → fetch u k = .ok d →
      (resolveOfferIfUri fetch url).result = .ok (some d) ∧
      (resolveOfferIfUri fetch url).delays = List.replicate k 500 ∧
      (resolveOfferIfUri fetch url).attemptsMade = k + 1) ∧
    (jsTruthyBytes (getParam (queryOf url) (bs "credential_offer")) = true →
      resolveOfferIfUri fetch url =
        { result := (parseCredentialOfferUrl url).map some, delays := [],
          attemptsMade := 0 }) := by
  refine ⟨⟨rfl, rfl⟩, ?_, ?_, ?_, ?_, ?_⟩
  · by_cases hco : jsTruthyBytes (getParam (queryOf url) (bs "credential_offer")) = true
    · simp [resolveOfferIfUri, hco]
    · rw [Bool.not_eq_true] at hco
      rcases huri : getParam (queryOf url) (bs "credential_offer_uri") with _ | u
      · simp [resolveOfferIfUri, hco, huri]
      · by_cases hu : u.isEmpty
        · simp [resolveOfferIfUri, hco, huri, hu]
        · have hb := fetchRetryGo_bounds (fetch u) 500 5 0
          simp only [resolveOfferIfUri, hco, Bool.false_eq_true, if_false, huri, hu,
            fetchCredentialOfferWithRetry, defaultRetryAttempts, defaultRetryDelayMs]
          exact ⟨by omega, hb.2⟩
  · intro hco huri
    rcases hg : getParam (queryOf url) (bs "credential_offer_uri") with _ | u
    · simp [resolveOfferIfUri, hco, hg]
    · have hu : u.isEmpty = true := by
        rw [hg] at huri
        simpa [jsTruthyBytes] using huri
      simp [resolveOfferIfUri, hco, hg, hu]
  · intro u hco huri hu hall
    obtain ⟨e, he, hgo⟩ := fetchRetryGo_exhaust (fetch u) 500 5 0 (by omega)
      (fun j h1 h2 => hall j (by omega))
    refine ⟨e, by simpa using he, ?_⟩
    have hne : u.isEmpty = false := by
      cases u <;> simp_all
    simp only [resolveOfferIfUri, hco, Bool.false_eq_true, if_false, huri, hne,
      fetchCredentialOfferWithRetry, defaultRetryAttempts, defaultRetryDelayMs, hgo]
    simp
  · intro u k d hco huri hu hk hfail hok
    have hgo := fetchRetryGo_success (fetch u) 500 k 0 5 d hk
      (fun j hj => by simpa using hfail j hj) (by simpa using hok)
    have hne : u.isEmpty = false := by
      cases u <;> simp_all
    simp only [resolveOfferIfUri, hco, Bool.false_eq_true, if_false, huri, hne,
      fetchCredentialOfferWithRetry, defaultRetryAttempts, defaultRetryDelayMs, hgo]
    simp
  · intro hco
    simp [resolveOfferIfUri, hco]


/-! ## Claim C1: offer URL round trip -/

theorem hexLower_spec (n : Nat) (h : n < 16) :
    isHexDigit (hexLower n) = true ∧ hexVal (hexLower n) = n := by
  unfold hexLower isHexDigit hexVal
  constructor
  · simp only [decide_eq_true_eq]
    split_ifs <;> omega
  · split_ifs <;> omega

theorem hexUpper_spec (n : Nat) (h : n < 16) :
    isHexDigit (hexUpper n) = true ∧ hexVal (hexUpper n) = n := by
  unfold hexUpper isHexDigit hexVal
  constructor
  · simp only [decide_eq_true_eq]
    split_ifs <;> omega
  · split_ifs <;> omega

theorem utf8EncodeNat_small (b : Nat) (h : b < 128) : utf8EncodeNat b = [b] := by
  unfold utf8EncodeNat
  rw [if_pos h]

theorem parseStr_escBytes (s : List Nat) : ∀ rest,
    parseStr (escBytes s ++ 34 :: rest) = some (s, rest) := by
  induction s with
  | nil =>
      intro rest
      rw [show escBytes [] ++ 34 :: rest = 34 :: rest by simp [escBytes]]
      rw [parseStr.eq_def]
      simp
  | cons b t ih =>
      intro rest
      by_cases h34 : b = 34
      · subst h34
        rw [show escBytes (34 :: t) ++ 34 :: rest =
          92 :: 34 :: (escBytes t ++ 34 :: rest) by simp [escBytes, escByte]]
        rw [parseStr.eq_def]
        simp [unescape, ih]
      · by_cases h92 : b = 92
        · subst h92
          rw [show escBytes (92 :: t) ++ 34 :: rest =
            92 :: 92 :: (escBytes t ++ 34 :: rest) by simp [escBytes, escByte]]
          rw [parseStr.eq_def]
          simp [unescape, ih]
        · by_cases h8 : b = 8
          · subst h8
            rw [show escBytes (8 :: t) ++ 34 :: rest =
              92 :: 98 :: (escBytes t ++ 34 :: rest) by simp [escBytes, escByte]]
            rw [parseStr.eq_def]
            simp [unescape, ih]
          · by_cases h9 : b = 9
            · subst h9
              rw [show escBytes (9 :: t) ++ 34 :: rest =
                92 :: 116 :: (escBytes t ++ 34 :: rest) by simp [escBytes, escByte]]
              rw [parseStr.eq_def]
              simp [unescape, ih]
            · by_cases h10 : b = 10
              · subst h10
                rw [show escBytes (10 :: t) ++ 34 :: rest =
                  92 :: 110 :: (escBytes t ++ 34 :: rest) by simp [escBytes, escByte]]
                rw [parseStr.eq_def]
                simp [unescape, ih]
              · by_cases h12 : b = 12
                · subst h12
                  rw [show escBytes (12 :: t) ++ 34 :: rest =
                    92 :: 102 :: (escBytes t ++ 34 :: rest) by simp [escBytes, escByte]]
                  rw [parseStr.eq_def]
                  simp [unescape, ih]
                · by_cases h13 : b = 13
                  · subst h13
                    rw [show escBytes (13 :: t) ++ 34 :: rest =
                      92 :: 114 :: (escBytes t ++ 34 :: rest) by simp [escBytes, escByte]]
                    rw [parseStr.eq_def]
                    simp [unescape, ih]
                  · by_cases hctl : b < 32
                    · have e1 : escByte b = [92, 117, 48, 48,
                          hexLower (b / 16), hexLower (b % 16)] := by
                        unfold escByte
                        rw [if_neg (by omega), if_neg (by omega), if_neg h8,
                          if_neg h9, if_neg h10, if_neg h12, if_neg h13,
                          if_pos hctl]
                      have hh1 := hexLower_spec (b / 16) (by omega)
                      have hh2 := hexLower_spec (b % 16) (by omega)
                      have hcode : hexVal 48 * 4096 + hexVal 48 * 256 +
                          hexVal (hexLower (b / 16)) * 16 + hexVal (hexLower (b % 16)) = b := by
                        rw [hh1.2, hh2.2]
                        have : hexVal 48 = 0 := by unfold hexVal; split_ifs <;> omega
                        rw [this]
                        omega
                      rw [show escBytes (b :: t) ++ 34 :: rest =
                        92 :: 117 :: 48 :: 48 :: hexLower (b / 16) :: hexLower (b % 16) ::
                          (escBytes t ++ 34 :: rest) by simp [escBytes, e1]]
                      rw [parseStr.eq_def]
                      have hd48 : isHexDigit 48 = true := by decide
                      have hsmall : utf8EncodeNat b = [b] :=
                        utf8EncodeNat_small b (by omega)
                      simp [hd48, hh1.1, hh2.1, hcode, ih, hsmall]
                    · have e1 : escByte b = [b] := by
                        unfold escByte
                        rw [if_neg h34, if_neg h92, if_neg h8, if_neg h9,
                          if_neg h10, if_neg h12, if_neg h13, if_neg hctl]
                      rw [show escBytes (b :: t) ++ 34 :: rest =
                        b :: (escBytes t ++ 34 :: rest) by simp [escBytes, e1]]
                      rw [parseStr.eq_def]
                      simp [h34, h92, ih]


theorem stringify_length_pos (j : Json) : 0 < (Json.stringify j).length := by
  cases j with
  | str s => simp [Json.stringify]
  | bool b => cases b <;> simp [Json.stringify]
  | null => simp [Json.stringify]
  | arr l => cases l <;> simp [Json.stringify]
  | obj fs => cases fs <;> simp [Json.stringify]

theorem stringifyElems_length_pos (t : List Json) :
    0 < (Json.stringifyElems t).length := by
  cases t <;> simp [Json.stringifyElems]

theorem stringifyFields_length_pos (t : List (List Nat × Json)) :
    0 < (Json.stringifyFields t).length := by
  cases t <;> simp [Json.stringifyFields]

theorem stringify_head (j : Json) :
    ∃ h t, Json.stringify j = h :: t ∧ h ≠ 93 ∧ h ≠ 125 := by
  cases j with
  | str s => exact ⟨34, _, rfl, by omega, by omega⟩
  | bool b => cases b <;> exact ⟨_, _, rfl, by omega, by omega⟩
  | null => exact ⟨110, _, rfl, by omega, by omega⟩
  | arr l => cases l <;> exact ⟨91, _, rfl, by omega, by omega⟩
  | obj fs => cases fs <;> exact ⟨123, _, rfl, by omega, by omega⟩

theorem parseElems_stringify (t : List Json) :
    ∀ x : Json,
      (∀ z : Json, z = x ∨ z ∈ t → ∀ fuel rest,
        (Json.stringify z).length ≤ fuel →
        parseValue fuel (Json.stringify z ++ rest) = some (z, rest)) →
      ∀ fuel rest,
        (Json.stringify x).length + (Json.stringifyElems t).length ≤ fuel →
        parseElems fuel (Json.stringify x ++ (Json.stringifyElems t ++ rest)) =
          some (x :: t, rest) := by
  induction t with
  | nil =>
      intro x ihv fuel rest hfuel
      have hpos := stringify_length_pos x
      simp only [Json.stringifyElems, List.length_cons, List.length_nil] at hfuel
      obtain ⟨f, rfl⟩ : ∃ f, fuel = f + 1 := ⟨fuel - 1, by omega⟩
      have hx := ihv x (Or.inl rfl) f (93 :: rest) (by omega)
      rw [show Json.stringifyElems [] ++ rest = 93 :: rest by
        simp [Json.stringifyElems]]
      rw [parseElems.eq_def]
      simp [hx]
  | cons y t2 ih =>
      intro x ihv fuel rest hfuel
      have hpx := stringify_length_pos x
      have hpy := stringify_length_pos y
      have hpe := stringifyElems_length_pos t2
      simp only [Json.stringifyElems, List.length_cons, List.length_append] at hfuel
      obtain ⟨f, rfl⟩ : ∃ f, fuel = f + 1 := ⟨fuel - 1, by omega⟩
      have hx := ihv x (Or.inl rfl) f
        (44 :: (Json.stringify y ++ (Json.stringifyElems t2 ++ rest))) (by omega)
      have hrec := ih y
        (fun z hz => ihv z (by
          rcases hz with rfl | hz
          · exact Or.inr (List.mem_cons_self _ _)
          · exact Or.inr (List.mem_cons_of_mem _ hz)))
        f rest (by omega)
      rw [show Json.stringifyElems (y :: t2) ++ rest =
        44 :: (Json.stringify y ++ (Json.stringifyElems t2 ++ rest)) by
          simp [Json.stringifyElems]]
      rw [parseElems.eq_def]
      simp [hx, hrec]



theorem parseFields_stringify (t : List (List Nat × Json)) :
    ∀ (k : List Nat) (v : Json),
      (∀ z : Json, z = v ∨ (∃ p ∈ t, z = p.2) → ∀ fuel rest,
        (Json.stringify z).length ≤ fuel →
        parseValue fuel (Json.stringify z ++ rest) = some (z, rest)) →
      ∀ fuel rest,
        (Json.stringifyField (k, v)).length +
          (Json.stringifyFields t).length ≤ fuel →
        parseFields fuel
          (Json.stringifyField (k, v) ++ (Json.stringifyFields t ++ rest)) =
          some ((k, v) :: t, rest) := by
  induction t with
  | nil =>
      intro k v ihv fuel rest hfuel
      simp only [Json.stringifyField, Json.stringifyFields, List.length_cons,
        List.length_append] at hfuel
      obtain ⟨f, rfl⟩ : ∃ f, fuel = f + 1 := ⟨fuel - 1, by omega⟩
      have hv := ihv v (Or.inl rfl) f (125 :: rest) (by omega)
      rw [show Json.stringifyField (k, v) ++ (Json.stringifyFields [] ++ rest) =
        34 :: (escBytes k ++ 34 :: (58 :: (Json.stringify v ++ (125 :: rest)))) by
          simp [Json.stringifyField, Json.stringifyFields]]
      rw [parseFields.eq_def]
      simp [parseStr_escBytes, hv]
  | cons p t2 ih =>
      intro k v ihv fuel rest hfuel
      obtain ⟨k2, v2⟩ := p
      simp only [Json.stringifyField, Json.stringifyFields, List.length_cons,
        List.length_append] at hfuel
      obtain ⟨f, rfl⟩ : ∃ f, fuel = f + 1 := ⟨fuel - 1, by omega⟩
      have hv := ihv v (Or.inl rfl) f
        (44 :: (Json.stringifyField (k2, v2) ++ (Json.stringifyFields t2 ++ rest)))
        (by omega)
      have hmem : ∀ z : Json, z = v2 ∨ (∃ q ∈ t2, z = q.2) → ∀ fuel2 rest2,
          (Json.stringify z).length ≤ fuel2 →
          parseValue fuel2 (Json.stringify z ++ rest2) = some (z, rest2) := by
        intro z hz
        apply ihv
        rcases hz with hz1 | ⟨q, hq, hq2⟩
        · exact Or.inr ⟨(k2, v2), List.mem_cons_self _ _, hz1⟩
        · exact Or.inr ⟨q, List.mem_cons_of_mem _ hq, hq2⟩
      have hrec := ih k2 v2 hmem f rest
        (by simp only [Json.stringifyField, List.length_cons,
          List.length_append]; omega)
      rw [show Json.stringifyField (k, v) ++
          (Json.stringifyFields ((k2, v2) :: t2) ++ rest) =
        34 :: (escBytes k ++ 34 :: (58 :: (Json.stringify v ++
          (44 :: (Json.stringifyField (k2, v2) ++ (Json.stringifyFields t2 ++ rest)))))) by
          simp [Json.stringifyField, Json.stringifyFields]]
      rw [parseFields.eq_def]
      simp [parseStr_escBytes, hv, hrec]



theorem parseValue_str (f : Nat) (r : List Nat) :
    parseValue (f + 1) (34 :: r) =
      (parseStr r).map (fun p => (Json.str p.1, p.2)) := rfl

theorem parseValue_true (f : Nat) (r : List Nat) :
    parseValue (f + 1) (116 :: 114 :: 117 :: 101 :: r) =
      some (Json.bool true, r) := rfl

theorem parseValue_false (f : Nat) (r : List Nat) :
    parseValue (f + 1) (102 :: 97 :: 108 :: 115 :: 101 :: r) =
      some (Json.bool false, r) := rfl

theorem parseValue_null (f : Nat) (r : List Nat) :
    parseValue (f + 1) (110 :: 117 :: 108 :: 108 :: r) =
      some (Json.null, r) := rfl

theorem parseValue_arr_nil (f : Nat) (r : List Nat) :
    parseValue (f + 1) (91 :: 93 :: r) = some (Json.arr [], r) := rfl

theorem parseValue_obj_nil (f : Nat) (r : List Nat) :
    parseValue (f + 1) (123 :: 125 :: r) = some (Json.obj [], r) := rfl

theorem parseValue_arr_cons (f hh : Nat) (X : List Nat) :
    parseValue (f + 1) (91 :: hh :: X) =
      (match hh :: X with
      | 93 :: r2 => some (Json.arr [], r2)
      | _ => (parseElems f (hh :: X)).map (fun p => (Json.arr p.1, p.2))) := rfl

theorem parseValue_obj_cons34 (f : Nat) (X : List Nat) :
    parseValue (f + 1) (123 :: 34 :: X) =
      (parseFields f (34 :: X)).map (fun p => (Json.obj p.1, p.2)) := rfl

theorem parseValue_stringify_aux :
    ∀ n : Nat, ∀ j : Json, sizeOf j ≤ n → ∀ fuel rest,
      (Json.stringify j).length ≤ fuel →
      parseValue fuel (Json.stringify j ++ rest) = some (j, rest) := by
  intro n
  induction n with
  | zero =>
      intro j hj
      exfalso
      cases j <;> simp at hj
  | succ n ih =>
      intro j hj fuel rest hfuel
      have hf0 : 0 < fuel := lt_of_lt_of_le (stringify_length_pos _) hfuel
      obtain ⟨f, rfl⟩ : ∃ f, fuel = f + 1 := ⟨fuel - 1, by omega⟩
      cases j with
      | str s =>
          rw [show Json.stringify (.str s) ++ rest =
            34 :: (escBytes s ++ 34 :: rest) by simp [Json.stringify]]
          rw [parseValue_str, parseStr_escBytes]
          rfl
      | bool b =>
          cases b
          · rw [show Json.stringify (.bool false) ++ rest =
              102 :: 97 :: 108 :: 115 :: 101 :: rest by simp [Json.stringify]]
            rw [parseValue_false]
          · rw [show Json.stringify (.bool true) ++ rest =
              116 :: 114 :: 117 :: 101 :: rest by simp [Json.stringify]]
            rw [parseValue_true]
      | null =>
          rw [show Json.stringify .null ++ rest =
            110 :: 117 :: 108 :: 108 :: rest by simp [Json.stringify]]
          rw [parseValue_null]
      | arr l =>
          cases l with
          | nil =>
              rw [show Json.stringify (.arr []) ++ rest = 91 :: 93 :: rest by
                simp [Json.stringify]]
              rw [parseValue_arr_nil]
          | cons x t =>
              have hpx := stringify_length_pos x
              have hpe := stringifyElems_length_pos t
              simp only [Json.stringify, List.length_cons, List.length_append] at hfuel
              have ihv : ∀ z : Json, z = x ∨ z ∈ t → ∀ fuel2 rest2,
                  (Json.stringify z).length ≤ fuel2 →
                  parseValue fuel2 (Json.stringify z ++ rest2) = some (z, rest2) := by
                intro z hz
                apply ih
                have hsz : sizeOf z < sizeOf (Json.arr (x :: t)) := by
                  have hm : z ∈ x :: t := by
                    rcases hz with hz1 | hz1
                    · rw [hz1]; exact List.mem_cons_self _ _
                    · exact List.mem_cons_of_mem _ hz1
                  have h2 := List.sizeOf_lt_of_mem hm
                  simp only [Json.arr.sizeOf_spec]
                  omega
                simp only [Json.arr.sizeOf_spec] at hj
                simp only [Json.arr.sizeOf_spec] at hsz
                omega
              have hel := parseElems_stringify t x ihv f rest (by omega)
              obtain ⟨hh, ht', hx, h93, _⟩ := stringify_head x
              rw [show Json.stringify (Json.arr (x :: t)) ++ rest =
                91 :: (Json.stringify x ++ (Json.stringifyElems t ++ rest)) by
                  simp [Json.stringify]]
              rw [hx]
              simp only [List.cons_append]
              rw [parseValue_arr_cons]
              split
              · rename_i r2 heq
                exfalso
                rw [List.cons.injEq] at heq
                exact h93 heq.1
              · rw [← List.cons_append, ← hx, hel]
                rfl
      | obj fs =>
          cases fs with
          | nil =>
              rw [show Json.stringify (.obj []) ++ rest = 123 :: 125 :: rest by
                simp [Json.stringify]]
              rw [parseValue_obj_nil]
          | cons p t =>
              obtain ⟨k, v⟩ := p
              have hpv := stringify_length_pos v
              have hpf := stringifyFields_length_pos t
              simp only [Json.stringify, Json.stringifyField, List.length_cons,
                List.length_append] at hfuel
              have ihv : ∀ z : Json, z = v ∨ (∃ q ∈ t, z = q.2) → ∀ fuel2 rest2,
                  (Json.stringify z).length ≤ fuel2 →
                  parseValue fuel2 (Json.stringify z ++ rest2) = some (z, rest2) := by
                intro z hz
                apply ih
                have hsz : sizeOf z < sizeOf (Json.obj ((k, v) :: t)) := by
                  rcases hz with hz1 | ⟨q, hq, hz1⟩
                  · rw [hz1]
                    simp only [Json.obj.sizeOf_spec, Prod.mk.sizeOf_spec,
                      List.cons.sizeOf_spec]
                    omega
                  · have h2 := List.sizeOf_lt_of_mem hq
                    obtain ⟨qk, qv⟩ := q
                    simp only at hz1
                    rw [hz1]
                    simp only [Json.obj.sizeOf_spec, Prod.mk.sizeOf_spec,
                      List.cons.sizeOf_spec] at h2 ⊢
                    omega
                simp only [Json.obj.sizeOf_spec] at hj hsz
                omega
              have hfl := parseFields_stringify t k v ihv f rest
                (by simp only [Json.stringifyField, List.length_cons,
                  List.length_append]; omega)
              rw [show Json.stringify (Json.obj ((k, v) :: t)) ++ rest =
                123 :: 34 :: (escBytes k ++ 34 :: (58 :: (Json.stringify v ++
                  (Json.stringifyFields t ++ rest)))) by
                  simp [Json.stringify, Json.stringifyField]]
              rw [parseValue_obj_cons34]
              rw [show (34 : Nat) :: (escBytes k ++ 34 :: (58 :: (Json.stringify v ++
                  (Json.stringifyFields t ++ rest)))) =
                Json.stringifyField (k, v) ++ (Json.stringifyFields t ++ rest) by
                  simp [Json.stringifyField]]
              rw [hfl]
              rfl

theorem Json.parse_stringify (j : Json) :
    Json.parse (Json.stringify j) = some j := by
  unfold Json.parse
  have h := parseValue_stringify_aux (sizeOf j) j le_rfl
    ((Json.stringify j).length + 1) [] (by omega)
  rw [List.append_nil] at h
  rw [h]

theorem hexUpper_range (m : Nat) (h : m < 16) :
    (48 ≤ hexUpper m ∧ hexUpper m ≤ 57) ∨ (65 ≤ hexUpper m ∧ hexUpper m ≤ 70) := by
  unfold hexUpper
  split_ifs <;> omega

theorem encodeURIComponent_mem (s : List Nat) (hwf : ∀ b ∈ s, b < 256) :
    ∀ x ∈ encodeURIComponent s, x = 37 ∨ isUnreservedByte x = true ∨
      (48 ≤ x ∧ x ≤ 57) ∨ (65 ≤ x ∧ x ≤ 70) := by
  induction s with
  | nil => intro x hx; simp [encodeURIComponent] at hx
  | cons b t ih =>
      intro x hx
      have hb : b < 256 := hwf b (List.mem_cons_self _ _)
      simp only [encodeURIComponent, List.mem_append] at hx
      rcases hx with hx | hx
      · unfold encByte at hx
        split_ifs at hx with hu
        · simp at hx
          subst hx
          exact Or.inr (Or.inl hu)
        · simp only [List.mem_cons, List.not_mem_nil, or_false] at hx
          rcases hx with rfl | rfl | rfl
          · exact Or.inl rfl
          · rcases hexUpper_range (b / 16) (by omega) with h | h
            · exact Or.inr (Or.inr (Or.inl h))
            · exact Or.inr (Or.inr (Or.inr h))
          · rcases hexUpper_range (b % 16) (by omega) with h | h
            · exact Or.inr (Or.inr (Or.inl h))
            · exact Or.inr (Or.inr (Or.inr h))
      · exact ih (fun b2 hb2 => hwf b2 (List.mem_cons_of_mem _ hb2)) x hx

theorem not_mem_encodeURIComponent (s : List Nat) (hwf : ∀ b ∈ s, b < 256)
    (x : Nat) (h37 : x ≠ 37) (hun : isUnreservedByte x = false)
    (hr : (x < 48 ∨ 57 < x) ∧ (x < 65 ∨ 70 < x)) :
    x ∉ encodeURIComponent s := by
  intro hmem
  rcases encodeURIComponent_mem s hwf x hmem with h | h | h | h
  · exact h37 h
  · rw [h] at hun; cases hun
  · omega
  · omega

theorem uspDecode_percent (a b2 : Nat) (r : List Nat) :
    uspDecode (37 :: a :: b2 :: r) =
      if (isHexDigit a && isHexDigit b2) = true then
        (hexVal a * 16 + hexVal b2) :: uspDecode r
      else 37 :: uspDecode (a :: b2 :: r) := rfl

theorem uspDecode_cons (c : Nat) (r : List Nat) (h37 : c ≠ 37) :
    uspDecode (c :: r) = (if c = 43 then 32 else c) :: uspDecode r := by
  rw [uspDecode.eq_def]
  split
  · rename_i heq
    cases heq
  · rename_i a b2 r2 heq
    rw [List.cons.injEq] at heq
    exact absurd heq.1 h37
  · rename_i c2 r2 hne heq
    rw [List.cons.injEq] at heq
    rw [heq.1, heq.2]

theorem uspDecode_encode (s : List Nat) (hwf : ∀ b ∈ s, b < 256) :
    uspDecode (encodeURIComponent s) = s := by
  induction s with
  | nil => rfl
  | cons b t ih =>
      have hb : b < 256 := hwf b (List.mem_cons_self _ _)
      have iht := ih (fun b2 hb2 => hwf b2 (List.mem_cons_of_mem _ hb2))
      simp only [encodeURIComponent]
      unfold encByte
      split_ifs with hu
      · have h37 : b ≠ 37 := by
          intro hh
          rw [hh] at hu
          cases hu
        have h43 : b ≠ 43 := by
          intro hh
          rw [hh] at hu
          cases hu
        simp only [List.cons_append, List.nil_append]
        rw [uspDecode_cons b _ h37, if_neg h43, iht]
      · have hh1 := hexUpper_spec (b / 16) (by omega)
        have hh2 := hexUpper_spec (b % 16) (by omega)
        simp only [List.cons_append, List.nil_append]
        rw [uspDecode_percent]
        rw [if_pos (by rw [hh1.1, hh2.1]; rfl)]
        rw [hh1.2, hh2.2, iht]
        congr 1
        omega

theorem decodeURIComponent_cons (c : Nat) (r : List Nat) (h37 : c ≠ 37) :
    decodeURIComponent (c :: r) =
      (decodeURIComponent r).map (fun t => c :: t) := by
  rw [decodeURIComponent.eq_def]
  split
  · rename_i heq
    cases heq
  · rename_i r2 heq
    rw [List.cons.injEq] at heq
    exact absurd heq.1 h37
  · rename_i c2 r2 heq
    rw [List.cons.injEq] at heq
    rw [heq.1, heq.2]

theorem decodeURIComponent_no_percent (s : List Nat) (hp : (37 : Nat) ∉ s) :
    decodeURIComponent s = some s := by
  induction s with
  | nil => rfl
  | cons c t ih =>
      have hc : c ≠ 37 := fun hh => hp (hh ▸ List.mem_cons_self _ _)
      have ht : (37 : Nat) ∉ t := fun hh => hp (List.mem_cons_of_mem _ hh)
      rw [decodeURIComponent_cons c t hc, ih ht]
      rfl



theorem jsSplit_no_sep (sep : Nat) (s : List Nat) (h : sep ∉ s) :
    jsSplit sep s = [s] := by
  induction s with
  | nil => rfl
  | cons c s2 ih =>
      have hc : c ≠ sep := fun hh => h (hh ▸ List.mem_cons_self _ _)
      have hs2 : sep ∉ s2 := fun hh => h (List.mem_cons_of_mem _ hh)
      simp only [jsSplit]
      rw [ih hs2, if_neg hc]

theorem jsSplit_append_sep (sep : Nat) (s t : List Nat) (h : sep ∉ s) :
    jsSplit sep (s ++ sep :: t) = s :: jsSplit sep t := by
  induction s with
  | nil =>
      simp only [List.nil_append, jsSplit]
      simp
  | cons c s2 ih =>
      have hc : c ≠ sep := fun hh => h (hh ▸ List.mem_cons_self _ _)
      have hs2 : sep ∉ s2 := fun hh => h (List.mem_cons_of_mem _ hh)
      simp only [List.cons_append, jsSplit, List.append_eq]
      rw [ih hs2, if_neg hc]

theorem queryOf_concat (P Q : List Nat) (hP : (63 : Nat) ∉ P)
    (hQ : (63 : Nat) ∉ Q) : queryOf (P ++ 63 :: Q) = Q := by
  unfold queryOf
  rw [jsSplit_append_sep _ _ _ hP, jsSplit_no_sep _ _ hQ]
  rfl

theorem splitFirstEq_append (k v : List Nat) (h : (61 : Nat) ∉ k) :
    splitFirstEq (k ++ 61 :: v) = (k, v) := by
  induction k with
  | nil =>
      simp only [List.nil_append, splitFirstEq]
      simp
  | cons c k2 ih =>
      have hc : c ≠ 61 := fun hh => h (hh ▸ List.mem_cons_self _ _)
      have hk2 : (61 : Nat) ∉ k2 := fun hh => h (List.mem_cons_of_mem _ hh)
      simp only [List.cons_append, splitFirstEq, List.append_eq]
      rw [if_neg hc, ih hk2]

theorem getParam_single (name enc : List Nat)
    (h38 : (38 : Nat) ∉ name ++ 61 :: enc)
    (h61 : (61 : Nat) ∉ name)
    (hdec : uspDecode name = name) :
    getParam (name ++ 61 :: enc) name = some (uspDecode enc) := by
  unfold getParam
  rw [jsSplit_no_sep _ _ h38]
  have hne : (name ++ 61 :: enc).isEmpty = false := by
    cases name <;> rfl
  simp only [List.filterMap, hne, Bool.false_eq_true, if_false]
  rw [splitFirstEq_append _ _ h61]
  simp [List.find?, hdec]



/-- C1 amended: serializing a credential-offer object to JSON,
URL-encoding it into the `credential_offer` query parameter of an offer
URL and resolving that URL with `parseCredentialOfferUrl` yields a
structurally identical offer object, provided the serialized JSON
contains no percent byte.  The restriction is forced by the parser
applying percent-decoding twice — once inside `URLSearchParams.get` and
once more via the explicit `decodeURIComponent` — so a `%` surviving in
the JSON is decoded a second time (see the counterexample).  The first
hypothesis only says the offer's strings are genuine byte strings
(every JavaScript string satisfies it). -/
theorem c1_roundtrip_amended (fs : List (List Nat × Json))
    (hwf : ∀ b ∈ Json.stringify (Json.obj fs), b < 256)
    (hp : (37 : Nat) ∉ Json.stringify (Json.obj fs)) :
    parseCredentialOfferUrl (encodeOfferUrl (Json.obj fs)) =
      Except.ok (Json.obj fs) := by
  have henc63 : (63 : Nat) ∉ encodeURIComponent (Json.stringify (Json.obj fs)) :=
    not_mem_encodeURIComponent _ hwf 63 (by omega) (by decide) (by omega)
  have henc38 : (38 : Nat) ∉ encodeURIComponent (Json.stringify (Json.obj fs)) :=
    not_mem_encodeURIComponent _ hwf 38 (by omega) (by decide) (by omega)
  have hurl : encodeOfferUrl (Json.obj fs) =
      bs "openid-credential-offer://localhost/" ++ 63 ::
        (bs "credential_offer" ++ 61 ::
          encodeURIComponent (Json.stringify (Json.obj fs))) := by
    unfold encodeOfferUrl
    rw [show bs "credential_offer=" = bs "credential_offer" ++ [61] by decide]
    simp
  have hQ63 : (63 : Nat) ∉ bs "credential_offer" ++ 61 ::
      encodeURIComponent (Json.stringify (Json.obj fs)) := by
    simp only [List.mem_append, List.mem_cons]
    push_neg
    exact ⟨by decide, by omega, henc63⟩
  have hQ38 : (38 : Nat) ∉ bs "credential_offer" ++ 61 ::
      encodeURIComponent (Json.stringify (Json.obj fs)) := by
    simp only [List.mem_append, List.mem_cons]
    push_neg
    exact ⟨by decide, by omega, henc38⟩
  have hne : (Json.stringify (Json.obj fs)).isEmpty = false := by
    rcases hq : Json.stringify (Json.obj fs) with _ | ⟨a, b⟩
    · have hl := stringify_length_pos (Json.obj fs)
      rw [hq] at hl
      simp at hl
    · rfl
  rw [hurl]
  unfold parseCredentialOfferUrl
  rw [queryOf_concat _ _ (by decide) hQ63]
  rw [getParam_single _ _ hQ38 (by decide) (by decide)]
  rw [uspDecode_encode _ hwf]
  simp [hne, decodeURIComponent_no_percent _ hp, Json.parse_stringify]


/-- An offer whose issuer string contains a percent escape sequence. -/
def c1Offer : Json :=
  Json.obj [(bs "credential_issuer", Json.str (bs "a%41b"))]

/-- C1 counterexample: the encode-and-serialize / decode-and-parse round
trip is not the identity on every offer object.  For an offer whose
serialized JSON contains `%41`, the parser percent-decodes a second
time and returns an offer whose issuer string says `aAb` instead of
`a%41b`. -/
theorem c1_counterexample :
    parseCredentialOfferUrl (encodeOfferUrl c1Offer) =
      Except.ok (Json.obj [(bs "credential_issuer", Json.str (bs "aAb"))]) ∧
    parseCredentialOfferUrl (encodeOfferUrl c1Offer) ≠ Except.ok c1Offer :=
  ⟨by decide, by decide⟩

theorem c1_roundtrip_witness :
    parseCredentialOfferUrl (encodeOfferUrl (Json.obj [(bs "credential_issuer",
      Json.str (bs "http://localhost:7002"))])) =
      Except.ok (Json.obj [(bs "credential_issuer",
        Json.str (bs "http://localhost:7002"))]) :=
  c1_roundtrip_amended _ (by decide) (by decide)



/-- A URL carrying only the indirection parameter, and a fetch whose
attempts all fail, for the C7 witness. -/
def c7Url : List Nat := bs "u://x?credential_offer_uri=remote"

/-- The failing fetch of the C7 witness. -/
def c7Fetch : List Nat → Nat → Except JsErr Json :=
  fun _ _ => .error (.thrown "offer not ready")

theorem c7_bounded_retry_witness :
    (resolveOfferIfUri c7Fetch c7Url).result =
      .error (.thrown "offer not ready") ∧
    (resolveOfferIfUri c7Fetch c7Url).delays = List.replicate 4 500 ∧
    (resolveOfferIfUri c7Fetch c7Url).attemptsMade = 5 := by
  obtain ⟨e, he, h1, h2, h3⟩ := (c7_bounded_retry c7Fetch c7Url).2.2.2.1
    (bs "remote") (by decide) (by decide) (by decide)
    (fun i hi => ⟨.thrown "offer not ready", rfl⟩)
  have h4 : (Except.error (JsErr.thrown "offer not ready") :
      Except JsErr Json) = .error e := he
  injection h4 with h5
  rw [← h5] at h1
  exact ⟨h1, h2, h3⟩


end PassportMDoc
